import Mathlib

/-!
# broxy: the history table model (`modules/coreproxy/model/model.go`)

A shallow embedding of the Go package `model`: the value types `Request` and `Response`
with their text rendering, `HTTPItem`, and the table model `CustomTableModel` with its
row store (`modelData`), its id index (`hashMap`) and the operations on them.

Conventions of the embedding

* A Go `string` or `[]byte` is a sequence of bytes (`GoString`); `len` and slicing count bytes.
* A Go pointer to a `Request`, `Response` or `url.URL` is an `Option` (`none` is `nil`): these
  objects are never written through by the package, so only their contents matter.
* A `*HTTPItem` is a `Ptr`: `none` is `nil`, `some a` names the object at address `a` of the
  `heap` carried by the state.  `editItem` writes through such pointers, so the objects they
  refer to are part of the state.
* A run-time panic is the `Except.error` result, carrying the kind of fault.
* The Qt signals the model emits are appended to the `emitted` log of the state.
-/

namespace Broxy

/-- Go `string` and `[]byte`: a sequence of bytes. -/
abbrev GoString := List UInt8

/-- The bytes (UTF-8) of a literal. -/
def lit (s : String) : GoString := s.data.flatMap String.utf8EncodeChar

/-- Run-time panics of the Go code. -/
inductive Fault where
  | nilDereference
  | indexOutOfRange
  | sliceOutOfRange
  deriving DecidableEq, Repr

instance {ε α : Type} [DecidableEq ε] [DecidableEq α] : DecidableEq (Except ε α)
  | .ok a, .ok b =>
    if h : a = b then isTrue (by rw [h]) else isFalse (fun h2 => by cases h2; exact h rfl)
  | .error a, .error b =>
    if h : a = b then isTrue (by rw [h]) else isFalse (fun h2 => by cases h2; exact h rfl)
  | .ok _, .error _ => isFalse (fun h => by cases h)
  | .error _, .ok _ => isFalse (fun h => by cases h)

/-- The type `url.Userinfo` of the standard library: a user name and an optional password. -/
structure Userinfo where
  username : GoString := []
  password : GoString := []
  passwordSet : Bool := false
  deriving DecidableEq, Repr

/-- The type `url.URL` of the standard library, field by field; `User` is a pointer (`none`
is `nil`). -/
structure URL where
  Scheme : GoString := []
  Opaque : GoString := []
  User : Option Userinfo := none
  Host : GoString := []
  Path : GoString := []
  RawPath : GoString := []
  OmitHost : Bool := false
  ForceQuery : Bool := false
  RawQuery : GoString := []
  Fragment : GoString := []
  RawFragment : GoString := []
  deriving DecidableEq, Repr

/-- The type `http.Header`, a `map[string][]string`, listed in the order in which the `range` loop
of the rendering visits its keys (Go leaves that order open). -/
abbrev Header := List (GoString × List GoString)

/-- Request represents an HTTP request logged in the history. -/
structure Request where
  URL : Option URL := none
  Proto : GoString := []
  Method : GoString := []
  Host : GoString := []
  Headers : Header := []
  ContentLength : Int := 0
  Body : GoString := []
  Extension : GoString := []
  Params : Bool := false
  deriving DecidableEq, Repr

/-- Response represents an HTTP response logged in the history. -/
structure Response where
  Proto : GoString := []
  Status : GoString := []
  StatusCode : Int := 0
  Headers : Header := []
  ContentLength : Int := 0
  Body : GoString := []
  deriving DecidableEq, Repr

/-- HTTPItem represents an item in the history table.  `QObject` is the object pointer held by
the embedded `core.QObject` (what `Pointer()` returns on a non-nil item; `0` is the nil
object pointer); copying the struct copies it. -/
structure HTTPItem where
  QObject : Nat := 0
  ID : Int := 0
  Req : Option Request := none
  Resp : Option Response := none
  EditedReq : Option Request := none
  EditedResp : Option Response := none
  deriving DecidableEq, Repr

/-- A `*HTTPItem`: `nil`, or the address of an object of the heap. -/
abbrev Ptr := Option Nat

/-- The index of a cell, as `QModelIndex.Row()` and `QModelIndex.Column()` report it. -/
structure QModelIndex where
  row : Int
  column : Int
  deriving DecidableEq, Repr

/-- The values `data` hands to the view: `NewQVariant()` is `invalid`, `NewQVariant1(x)` keeps
the Go value `x` (an `int`, an `int64` or a `string`). -/
inductive QVariant where
  | invalid
  | int (n : Int)
  | int64 (n : Int)
  | string (s : GoString)
  deriving DecidableEq, Repr

/-- The signals the model sends to the view. -/
inductive Signal where
  | beginInsertRows (first last : Int)
  | endInsertRows
  | beginRemoveRows (first last : Int)
  | endRemoveRows
  | dataChanged (topLeft bottomRight : QModelIndex) (roles : List Int)
  deriving DecidableEq, Repr

/-- CustomTableModel represents the table model behind the history view, together with the
`HTTPItem` objects its pointers refer to (`heap`) and the signals sent so far (`emitted`). -/
structure CustomTableModel where
  heap : List HTTPItem := []
  modelData : List HTTPItem := []
  hashMap : List (Int × Ptr) := []
  emitted : List Signal := []
  deriving DecidableEq, Repr

/-! ## Column and role constants

The columns are the `iota` constants of lines 121 to 130; the roles are those of Qt. -/

def ID : Int := 0
def Host : Int := 1
def Method : Int := 2
def Path : Int := 3
def Params : Int := 4
def Edit : Int := 5
def Status : Int := 6
def Length : Int := 7

/-- The role `core.Qt__DisplayRole`. -/
def Qt__DisplayRole : Int := 0
/-- The role `core.Qt__TextAlignmentRole`. -/
def Qt__TextAlignmentRole : Int := 7
/-- The flag `core.Qt__AlignCenter` (`AlignHCenter | AlignVCenter`). -/
def Qt__AlignCenter : Int := 0x84

/-! ## Go primitives -/

/-- The decimal text of an integer, `fmt.Sprintf("%d", n)`. -/
def fmtD (n : Int) : GoString := lit (toString n)

/-- The slice `s[k:]` of a string: panics when `k` exceeds `len(s)`. -/
def sliceFrom (s : GoString) (k : Nat) : Except Fault GoString :=
  if k ≤ s.length then .ok (s.drop k) else .error .sliceOutOfRange

/-- The element `xs[i]` of a slice: panics unless `0 ≤ i < len(xs)`. -/
def elemAt (xs : List HTTPItem) (i : Int) : Except Fault HTTPItem :=
  if 0 ≤ i then
    match xs[i.toNat]? with
    | some x => .ok x
    | none => .error .indexOutOfRange
  else .error .indexOutOfRange

/-- The lookup `m[k]` on a map of pointers: the zero value `nil` when `k` has no entry. -/
def mapGet (h : List (Int × Ptr)) (k : Int) : Ptr :=
  match h.lookup k with
  | some p => p
  | none => none

/-- The assignment `m[k] = p` on a map: the entry of `k` is replaced. -/
def mapSet (h : List (Int × Ptr)) (k : Int) (p : Ptr) : List (Int × Ptr) :=
  (k, p) :: h.filter (fun e => e.1 ≠ k)

/-- The read `*p`, or of a field `p.f`, through a `*HTTPItem`: panics on `nil`. -/
def deref (heap : List HTTPItem) (p : Ptr) : Except Fault HTTPItem :=
  match p with
  | none => .error .nilDereference
  | some a =>
    match heap[a]? with
    | some x => .ok x
    | none => .error .nilDereference

/-- The write `p.f = v`, as the update `f` of the object at `p`: panics on `nil`. -/
def assign (heap : List HTTPItem) (p : Ptr) (f : HTTPItem → HTTPItem) :
    Except Fault (List HTTPItem) :=
  match p with
  | none => .error .nilDereference
  | some a =>
    match heap[a]? with
    | some x => .ok (heap.set a (f x))
    | none => .error .nilDereference

/-- The call `i.Pointer()` on a `*HTTPItem`: the method is promoted through the embedded
value field `core.QObject`, so the call reads through `i` and panics on `nil`; on an item it
answers the object pointer held by that field. -/
def Pointer (heap : List HTTPItem) (i : Ptr) : Except Fault Nat :=
  match i with
  | none => .error .nilDereference
  | some a =>
    match heap[a]? with
    | some x => .ok x.QObject
    | none => .error .nilDereference

/-- The read `p.f` on a pointer to a request, a response or a URL: panics on `nil`. -/
def field {α : Type} (p : Option α) : Except Fault α :=
  match p with
  | some x => .ok x
  | none => .error .nilDereference

/-! ## Rendering -/

/-! ### The escaping of `net/url`

The string form of a URL is computed by the standard library; these definitions follow its
functions `shouldEscape`, `escape`, `unescape`, `validEncoded`, `EscapedPath`,
`EscapedFragment` and `String`. -/

/-- The escaping modes of `net/url`. -/
inductive Encoding where
  | encodePath
  | encodePathSegment
  | encodeHost
  | encodeZone
  | encodeUserPassword
  | encodeQueryComponent
  | encodeFragment
  deriving DecidableEq, Repr

/-- The function `shouldEscape`: whether the byte must be written as `%XX` in the given part
of a URL. -/
def shouldEscape (c : UInt8) (mode : Encoding) : Bool :=
  if (0x61 ≤ c ∧ c ≤ 0x7a) ∨ (0x41 ≤ c ∧ c ≤ 0x5a) ∨ (0x30 ≤ c ∧ c ≤ 0x39) then false
  else if (mode = .encodeHost ∨ mode = .encodeZone) ∧
      (c = 0x27 ∨ c = 0x22 ∨ c ∈ lit "!$&()*+,;=:[]<>") then false
  else if c ∈ lit "-_.~" then false
  else if c ∈ lit "$&+,/:;=?@" then
    match mode with
    | .encodePath => decide (c = 0x3f)
    | .encodePathSegment => decide (c ∈ lit "/;,?")
    | .encodeUserPassword => decide (c ∈ lit "@/?:")
    | .encodeQueryComponent => true
    | .encodeFragment => false
    | .encodeHost => true
    | .encodeZone => true
  else if mode = .encodeFragment ∧ c ∈ lit "!()*" then false
  else true

/-- The table `upperhex`: the upper-case hexadecimal digit of a value below 16. -/
def upperhex (n : Nat) : UInt8 := (lit "0123456789ABCDEF").getD n 0

/-- The function `escape`: a space becomes `+` in a query component, every other byte that
must be escaped becomes `%XX`, and the remaining bytes are kept. -/
def escape (s : GoString) (mode : Encoding) : GoString :=
  s.flatMap fun c =>
    if c = 0x20 ∧ mode = .encodeQueryComponent then [0x2b]
    else if shouldEscape c mode then [0x25, upperhex (c.toNat / 16), upperhex (c.toNat % 16)]
    else [c]

/-- The function `ishex`. -/
def ishex (c : UInt8) : Bool :=
  (0x30 ≤ c ∧ c ≤ 0x39) ∨ (0x61 ≤ c ∧ c ≤ 0x66) ∨ (0x41 ≤ c ∧ c ≤ 0x46)

/-- The function `unhex`: the value of a hexadecimal digit. -/
def unhex (c : UInt8) : Nat :=
  if 0x30 ≤ c ∧ c ≤ 0x39 then c.toNat - 0x30
  else if 0x61 ≤ c ∧ c ≤ 0x66 then c.toNat - 0x61 + 10
  else if 0x41 ≤ c ∧ c ≤ 0x46 then c.toNat - 0x41 + 10
  else 0

/-- The function `unescape` in the modes of a path and of a fragment, read byte by byte: every
`%` must be followed by two hexadecimal digits, which it decodes; `none` is the error result.
The first argument is what of an escape has been read so far. -/
def unescapeFrom : Option (Option UInt8) → GoString → Option GoString
  | none, [] => some []
  | some _, [] => none
  | none, c :: rest =>
    if c = 0x25 then unescapeFrom (some none) rest
    else (unescapeFrom none rest).map (fun t => c :: t)
  | some none, c :: rest =>
    if ishex c then unescapeFrom (some (some c)) rest else none
  | some (some h), c :: rest =>
    if ishex c then
      (unescapeFrom none rest).map (fun t => (unhex h * 16 + unhex c).toUInt8 :: t)
    else none

/-- The function `validEncoded`: no byte of the string would have to be escaped, the
sub-delimiters, the brackets and `%` being let through. -/
def validEncoded (s : GoString) (mode : Encoding) : Bool :=
  s.all fun c =>
    if c = 0x27 ∨ c ∈ lit "!$&()*+,;=:@[]%" then true else !shouldEscape c mode

/-- The method `(*URL).EscapedPath`: `RawPath` when it is a valid encoding of `Path`, the
path `*` as it is, and the escaped `Path` otherwise. -/
def URL.EscapedPath (u : URL) : GoString :=
  if u.RawPath ≠ [] ∧ validEncoded u.RawPath .encodePath = true ∧
      unescapeFrom none u.RawPath = some u.Path then u.RawPath
  else if u.Path = lit "*" then lit "*"
  else escape u.Path .encodePath

/-- The method `(*URL).EscapedFragment`: `RawFragment` when it is a valid encoding of
`Fragment`, the escaped `Fragment` otherwise. -/
def URL.EscapedFragment (u : URL) : GoString :=
  if u.RawFragment ≠ [] ∧ validEncoded u.RawFragment .encodeFragment = true ∧
      unescapeFrom none u.RawFragment = some u.Fragment then u.RawFragment
  else escape u.Fragment .encodeFragment

/-- The method `(*Userinfo).String`: the escaped user name, and `:` with the escaped password
when one is set. -/
def Userinfo.String (ui : Userinfo) : GoString :=
  let s := escape ui.username .encodeUserPassword
  if ui.passwordSet = true then s ++ lit ":" ++ escape ui.password .encodeUserPassword else s

/-- The method `(*url.URL).String` of the standard library: `scheme:opaque?query#fragment` or
`scheme://userinfo@host/path?query#fragment`, each part written only when present. -/
def URL.String (u : URL) : GoString :=
  let buf : GoString := if u.Scheme ≠ [] then u.Scheme ++ lit ":" else []
  let buf : GoString :=
    if u.Opaque ≠ [] then buf ++ u.Opaque
    else
      let buf : GoString :=
        if u.Scheme ≠ [] ∨ u.Host ≠ [] ∨ u.User ≠ none then
          if u.OmitHost = true ∧ u.Host = [] ∧ u.User = none then buf
          else
            let buf : GoString :=
              if u.Host ≠ [] ∨ u.Path ≠ [] ∨ u.User ≠ none then buf ++ lit "//" else buf
            let buf : GoString :=
              match u.User with
              | some ui => buf ++ ui.String ++ lit "@"
              | none => buf
            if u.Host ≠ [] then buf ++ escape u.Host .encodeHost else buf
        else buf
      let path := u.EscapedPath
      let buf : GoString :=
        if path ≠ [] ∧ path.head? ≠ some 0x2f ∧ u.Host ≠ [] then buf ++ lit "/" else buf
      let buf : GoString :=
        if buf = [] ∧ 0x3a ∈ path.takeWhile (fun c => c ≠ 0x2f) then buf ++ lit "./" else buf
      buf ++ path
  let buf : GoString :=
    if u.ForceQuery = true ∨ u.RawQuery ≠ [] then buf ++ lit "?" ++ u.RawQuery else buf
  if u.Fragment ≠ [] then buf ++ lit "#" ++ u.EscapedFragment else buf

/-- The text `fmt.Sprintf("%v", u)` of a `*url.URL`: its `String()`, and `<nil>` for the nil
pointer. -/
def fmtV (u : Option URL) : GoString :=
  match u with
  | some x => x.String
  | none => lit "<nil>"

/-- The header loop shared by both renderings: for every key, in the order of the iteration,
one line `key: values` with the values of the key concatenated. -/
def headerLines (h : Header) : GoString :=
  h.foldl (fun ret kv => ret ++ (kv.1 ++ lit ": " ++ kv.2.foldl (fun values s => values ++ s) []
    ++ lit "\n")) []

/-- ToString returns a string representation of an HTTP request logged in the history. -/
def Request.ToString (r : Option Request) : Except Fault GoString :=
  match r with
  | none => .ok []
  | some r => do
    let u1 := fmtV r.URL
    let url ← field r.URL
    let path ← sliceFrom u1 (url.Scheme.length + 2)
    let ret := r.Method ++ lit " " ++ path ++ lit " " ++ r.Proto ++ lit "\nHost: " ++ r.Host
      ++ lit "\n"
    let ret := ret ++ headerLines r.Headers
    let ret := if r.Body.length > 0 then ret ++ (lit "\n" ++ r.Body) else ret
    pure ret

/-- ToString returns a string representation of an HTTP response logged in the history. -/
def Response.ToString (r : Option Response) : GoString :=
  match r with
  | none => []
  | some r =>
    let ret := r.Proto ++ lit " " ++ r.Status ++ lit "\n"
    let ret := ret ++ headerLines r.Headers
    let ret := ret ++ (lit "Content-Length: " ++ fmtD r.ContentLength ++ lit "\n")
    if r.Body.length > 0 then ret ++ (lit "\n" ++ r.Body) else ret

/-! ## The table model -/

namespace CustomTableModel

/-- The constructor `init`: both containers start empty. -/
def init (m : CustomTableModel) : CustomTableModel :=
  { m with modelData := [], hashMap := [] }

/-- The first index, counted from `k`, of an element with the object pointer `p`: what the
loop of `row` finds once `i.Pointer()` has answered `p`. -/
def rowFrom (p : Nat) : List HTTPItem → Nat → Option Nat
  | [], _ => none
  | item :: rest, k => if item.QObject = p then some k else rowFrom p rest (k + 1)

/-- The loop of `row` from index `k` on: every iteration calls `i.Pointer()` and compares it
with the object pointer of the element; over an empty slice the body never runs. -/
def rowLoop (heap : List HTTPItem) (i : Ptr) : List HTTPItem → Nat → Except Fault (Option Nat)
  | [], _ => pure none
  | item :: rest, k => do
    let p ← Pointer heap i
    if item.QObject = p then pure (some k) else rowLoop heap i rest (k + 1)

/-- The index of the first row whose object pointer is that of `i`, and `0` when the loop
ends without one. -/
def row (m : CustomTableModel) (i : Ptr) : Except Fault Int := do
  match ← rowLoop m.heap i m.modelData 0 with
  | some index => pure (index : Int)
  | none => pure 0

/-- The number of rows, `len(m.modelData)`. -/
def rowCount (m : CustomTableModel) : Int := m.modelData.length

/-- The number of columns, fixed at 8. -/
def columnCount (_m : CustomTableModel) : Int := 8

/-- The method `QAbstractTableModel::index`: the index of the cell when the model has it,
the invalid index `(-1, -1)` otherwise. -/
def Index (m : CustomTableModel) (row column : Int) : QModelIndex :=
  if 0 ≤ row ∧ 0 ≤ column ∧ row < m.rowCount ∧ column < m.columnCount then ⟨row, column⟩
  else ⟨-1, -1⟩

/-- GetReqResp returns request, edited request, response and edited response for a given row
in the history table. -/
def GetReqResp (m : CustomTableModel) (i : Int) :
    Except Fault (Option Request × Option Request × Option Response × Option Response) :=
  if i ≥ 0 then do
    let a ← elemAt m.modelData i
    let b ← elemAt m.modelData i
    let c ← elemAt m.modelData i
    let d ← elemAt m.modelData i
    pure (a.Req, b.EditedReq, c.Resp, d.EditedResp)
  else pure (none, none, none, none)

/-- The slot `clearHistory`: announces the removal of rows `0` to `len(m.modelData)`, then
empties both containers. -/
def clearHistory (m : CustomTableModel) : CustomTableModel :=
  let m := { m with emitted := m.emitted ++ [Signal.beginRemoveRows 0 m.modelData.length] }
  let m := { m with modelData := [] }
  let m := { m with hashMap := [] }
  { m with emitted := m.emitted ++ [Signal.endRemoveRows] }

/-- The slot `addItem`: announces the insertion of one row at the end, stores the pointer
under the key `i` and appends a copy of `*item`. -/
def addItem (m : CustomTableModel) (item : Ptr) (i : Int) : Except Fault CustomTableModel := do
  let m := { m with
    emitted := m.emitted ++ [Signal.beginInsertRows m.modelData.length m.modelData.length] }
  let m := { m with hashMap := mapSet m.hashMap i item }
  let x ← deref m.heap item
  let m := { m with modelData := m.modelData ++ [x] }
  pure { m with emitted := m.emitted ++ [Signal.endInsertRows] }

/-- The write `m.modelData[row].f = v`, as the update `f` of the element: panics when `row`
is not an index of the slice. -/
def assignRow (xs : List HTTPItem) (row : Int) (f : HTTPItem → HTTPItem) :
    Except Fault (List HTTPItem) := do
  let x ← elemAt xs row
  pure (xs.set row.toNat (f x))

/-- The slot `editItem`: resolves the row of the object registered under `i`, writes the two
responses of `item` to that object and to that row, statement by statement, and sends
`dataChanged`. -/
def editItem (m : CustomTableModel) (item : Ptr) (i : Int) : Except Fault CustomTableModel := do
  let row ← m.row (mapGet m.hashMap i)
  let v ← deref m.heap item
  let heap ← assign m.heap (mapGet m.hashMap i) (fun e => { e with Resp := v.Resp })
  let m := { m with heap := heap }
  let v ← deref m.heap item
  let heap ← assign m.heap (mapGet m.hashMap i) (fun e => { e with EditedResp := v.EditedResp })
  let m := { m with heap := heap }
  let v ← deref m.heap item
  let rows ← assignRow m.modelData row (fun e => { e with Resp := v.Resp })
  let m := { m with modelData := rows }
  let v ← deref m.heap item
  let rows ← assignRow m.modelData row (fun e => { e with EditedResp := v.EditedResp })
  let m := { m with modelData := rows }
  pure { m with
    emitted := m.emitted ++
      [Signal.dataChanged (m.Index row 2) (m.Index row 2) [Edit, Status, Length]] }

/-- The callback `data`: the alignment hint of the centred columns, the empty value for any
other role than display, and for the display role the cell of the row `index.Row()`. -/
def data (m : CustomTableModel) (index : QModelIndex) (role : Int) : Except Fault QVariant :=
  if role = Qt__TextAlignmentRole ∧
      (index.column = Method ∨ index.column = Params ∨ index.column = Edit ∨
        index.column = Length) then
    pure (.int64 Qt__AlignCenter)
  else if role ≠ Qt__DisplayRole then
    pure .invalid
  else do
    let item ← elemAt m.modelData index.row
    if index.column = ID then
      pure (.int item.ID)
    else if index.column = Host then do
      let req ← field item.Req
      pure (.string req.Host)
    else if index.column = Method then do
      let req ← field item.Req
      pure (.string req.Method)
    else if index.column = Path then do
      let req ← field item.Req
      let url ← field req.URL
      pure (.string url.Path)
    else if index.column = Params then do
      let req ← field item.Req
      if req.Params = true then pure (.string (lit "✓")) else pure (.string (lit ""))
    else if index.column = Edit then
      if item.EditedReq ≠ none ∨ item.EditedResp ≠ none then pure (.string (lit "✓"))
      else pure (.string (lit ""))
    else if index.column = Status then
      match item.Resp with
      | some resp => pure (.string resp.Status)
      | none => pure .invalid
    else if index.column = Length then
      match item.Resp with
      | some resp => pure (.string (fmtD resp.ContentLength))
      | none => pure .invalid
    else
      pure .invalid

end CustomTableModel

/-! ## Sequences of calls -/

/-- One call of a mutating operation of the model. -/
inductive Op where
  | add (item : Ptr) (i : Int)
  | edit (item : Ptr) (i : Int)
  | clear
  deriving DecidableEq, Repr

/-- The effect of one call. -/
def step (m : CustomTableModel) : Op → Except Fault CustomTableModel
  | .add item i => m.addItem item i
  | .edit item i => m.editItem item i
  | .clear => pure m.clearHistory

/-- The effect of a sequence of calls, first call first; a panic ends the run. -/
def run (m : CustomTableModel) : List Op → Except Fault CustomTableModel
  | [] => pure m
  | op :: rest =>
    match step m op with
    | .ok m1 => run m1 rest
    | .error e => .error e

/-- The pointer is not nil (it names an object of the heap). -/
def validPtr (heap : List HTTPItem) (item : Ptr) : Bool :=
  match item with
  | some a => decide (a < heap.length)
  | none => false

/-- The calls the contract of the model allows in state `m`: the item handed to `addItem` or
`editItem` is not nil, and `editItem` is called with a registered id. -/
def allowed (m : CustomTableModel) : Op → Bool
  | .add item _ => validPtr m.heap item
  | .edit item i => validPtr m.heap item && (m.hashMap.lookup i).isSome
  | .clear => true

/-- Every call of the sequence is allowed in the state in which it is made. -/
def admissible : CustomTableModel → List Op → Bool
  | _, [] => true
  | m, op :: rest =>
    allowed m op &&
      match step m op with
      | .ok m1 => admissible m1 rest
      | .error _ => true

/-- The calls made after the last `clearHistory` of the sequence (all of them when there is
none). -/
def afterLastClear : List Op → List Op
  | [] => []
  | op :: rest =>
    if Op.clear ∈ rest then afterLastClear rest
    else if op = Op.clear then rest
    else op :: rest

/-- The call is an `addItem`. -/
def isAdd : Op → Bool
  | .add _ _ => true
  | _ => false

/-- The number of `addItem` calls made after the last `clearHistory`. -/
def addsSinceClear (ops : List Op) : Nat := (afterLastClear ops).countP isAdd

/-- The row count after a run that starts with `n` rows, call by call. -/
def countFrom (n : Nat) : List Op → Nat
  | [] => n
  | .add _ _ :: rest => countFrom (n + 1) rest
  | .edit _ _ :: rest => countFrom n rest
  | .clear :: rest => countFrom 0 rest

/-- The pointers of the index name objects of the heap, and a registered id comes with at
least one row. -/
def WellFormed (m : CustomTableModel) : Prop :=
  ∀ k p, m.hashMap.lookup k = some p →
    (∃ a, p = some a ∧ a < m.heap.length) ∧ m.modelData ≠ []

/-! ## Consistency of the index and the rows -/

/-- The fields of an entry that no operation of the model writes: the object pointer, the
id and the two requests. -/
def frame (x : HTTPItem) : Nat × Int × Option Request × Option Request :=
  (x.QObject, x.ID, x.Req, x.EditedReq)

/-- The index and the rows agree: every key of `hashMap` maps to an entry whose `ID` is the
key and of which some row of `modelData` is a copy (same object pointer, id and requests), and
the `ID` of every row of `modelData` is a key of `hashMap`. -/
def Consistent (m : CustomTableModel) : Prop :=
  (∀ k p, m.hashMap.lookup k = some p →
    ∃ a e, p = some a ∧ m.heap[a]? = some e ∧ e.ID = k ∧
      ∃ x, x ∈ m.modelData ∧ frame x = frame e) ∧
  (∀ x, x ∈ m.modelData → ∃ p, m.hashMap.lookup x.ID = some p)

/-! ## Sample values -/

def exampleURL : URL :=
  { Scheme := lit "http", Host := lit "example.com", Path := lit "/a", RawQuery := lit "b=1" }

def exampleRequest : Request :=
  { URL := some exampleURL, Proto := lit "HTTP/1.1", Method := lit "GET",
    Host := lit "example.com" }

def exampleResponse : Response :=
  { Proto := lit "HTTP/1.1", Status := lit "200 OK", StatusCode := 200, ContentLength := 12 }

/-- A heap of three items: two captured transactions and an update carrying a response. -/
def exampleHeap : List HTTPItem :=
  [ { QObject := 0x1000, ID := 1, Req := some exampleRequest },
    { QObject := 0x2000, ID := 2, Req := some exampleRequest },
    { QObject := 0x3000, ID := 2, Req := some exampleRequest, Resp := some exampleResponse,
      EditedResp := some exampleResponse } ]

/-- A freshly initialised model over the sample heap. -/
def fresh : CustomTableModel := CustomTableModel.init { heap := exampleHeap }

/-- The model after the first sample item was added under id `1`. -/
def oneRow : CustomTableModel :=
  { heap := exampleHeap,
    modelData := [{ QObject := 0x1000, ID := 1, Req := some exampleRequest }],
    hashMap := [(1, some 0)],
    emitted := [Signal.beginInsertRows 0 0, Signal.endInsertRows] }

/-- The model after the first two sample items were added under the ids `1` and `2`. -/
def twoRows : CustomTableModel :=
  { heap := exampleHeap,
    modelData := [{ QObject := 0x1000, ID := 1, Req := some exampleRequest },
                  { QObject := 0x2000, ID := 2, Req := some exampleRequest }],
    hashMap := [(2, some 1), (1, some 0)],
    emitted := [Signal.beginInsertRows 0 0, Signal.endInsertRows,
                Signal.beginInsertRows 1 1, Signal.endInsertRows] }

/-- The model after the first sample item, whose `ID` is 1, was added under the key `7`. -/
def mismatched : CustomTableModel :=
  { heap := exampleHeap,
    modelData := [{ QObject := 0x1000, ID := 1, Req := some exampleRequest }],
    hashMap := [(7, some 0)],
    emitted := [Signal.beginInsertRows 0 0, Signal.endInsertRows] }

/-- A response with no header, no body and content length 0. -/
def okResponse : Response :=
  { Proto := lit "HTTP/1.1", Status := lit "200 OK", ContentLength := 0 }

/-- A heap of items built by struct literals, which leave the object pointer of the embedded
`QObject` nil: two captured transactions and an update carrying a response. -/
def literalHeap : List HTTPItem :=
  [ { ID := 1, Req := some exampleRequest },
    { ID := 2, Req := some exampleRequest },
    { ID := 2, Req := some exampleRequest, Resp := some exampleResponse,
      EditedResp := some exampleResponse } ]

/-- The model after the first two items of `literalHeap` were added under the ids `1` and
`2`: two rows with the same (nil) object pointer. -/
def literalRows : CustomTableModel :=
  { heap := literalHeap,
    modelData := [{ ID := 1, Req := some exampleRequest },
                  { ID := 2, Req := some exampleRequest }],
    hashMap := [(2, some 1), (1, some 0)],
    emitted := [Signal.beginInsertRows 0 0, Signal.endInsertRows,
                Signal.beginInsertRows 1 1, Signal.endInsertRows] }

/-! ## Basic facts about the primitives -/

theorem elemAt_natCast (xs : List HTTPItem) (r : Nat) :
    elemAt xs (r : Int) = match xs[r]? with
      | some x => .ok x
      | none => .error .indexOutOfRange := by
  simp [elemAt]

theorem elemAt_of_getElem? {xs : List HTTPItem} {r : Nat} {x : HTTPItem}
    (h : xs[r]? = some x) : elemAt xs (r : Int) = .ok x := by
  simp [elemAt, h]

theorem elemAt_neg (xs : List HTTPItem) (i : Int) (h : i < 0) :
    elemAt xs i = .error .indexOutOfRange := by
  simp [elemAt, not_le.mpr h]

theorem elemAt_ge (xs : List HTTPItem) (i : Int) (h : (xs.length : Int) ≤ i) :
    elemAt xs i = .error .indexOutOfRange := by
  have h0 : 0 ≤ i := le_trans (Int.ofNat_nonneg _) h
  have h1 : xs.length ≤ i.toNat := by omega
  simp [elemAt, h0, List.getElem?_eq_none h1]

theorem mapGet_of_lookup_none {h : List (Int × Ptr)} {k : Int} (hk : h.lookup k = none) :
    mapGet h k = none := by
  simp [mapGet, hk]

theorem deref_error (heap : List HTTPItem) (p : Ptr) (e : Fault) (h : deref heap p = .error e) :
    e = .nilDereference := by
  unfold deref at h
  split at h
  · cases h; rfl
  · split at h
    · cases h
    · cases h; rfl

theorem deref_some {heap : List HTTPItem} {a : Nat} {x : HTTPItem} (h : heap[a]? = some x) :
    deref heap (some a) = .ok x := by
  simp [deref, h]

theorem assign_some {heap : List HTTPItem} {a : Nat} {x : HTTPItem} (h : heap[a]? = some x)
    (f : HTTPItem → HTTPItem) : assign heap (some a) f = .ok (heap.set a (f x)) := by
  simp [assign, h]

theorem rowLoop_of_Pointer {heap : List HTTPItem} {i : Ptr} {p : Nat}
    (hp : Pointer heap i = .ok p) : ∀ (xs : List HTTPItem) (k : Nat),
    CustomTableModel.rowLoop heap i xs k = .ok (CustomTableModel.rowFrom p xs k) := by
  intro xs
  induction xs with
  | nil => intro k; rfl
  | cons item rest ih =>
    intro k
    simp only [CustomTableModel.rowLoop, CustomTableModel.rowFrom, hp, bind, Except.bind]
    split
    · rfl
    · exact ih (k + 1)

theorem Pointer_some {heap : List HTTPItem} {a : Nat} {e : HTTPItem} (he : heap[a]? = some e) :
    Pointer heap (some a) = .ok e.QObject := by
  simp [Pointer, he]

/-- The scan for the nil item: `0` over an empty slice, a nil dereference otherwise. -/
theorem row_nil (m : CustomTableModel) :
    m.row none = if m.modelData = [] then .ok 0 else .error .nilDereference := by
  unfold CustomTableModel.row
  cases h : m.modelData with
  | nil => rfl
  | cons item rest => rfl

/-- An update through an unregistered id ends in a nil dereference: in the scan of `row` when
there are rows, at the write through the nil map value when there are none. -/
theorem editItem_unregistered (m : CustomTableModel) (item : Ptr) (i : Int)
    (h : mapGet m.hashMap i = none) : m.editItem item i = .error .nilDereference := by
  unfold CustomTableModel.editItem
  rw [h, row_nil]
  by_cases hm : m.modelData = []
  · rw [if_pos hm]
    cases hd : deref m.heap item with
    | error e => rw [deref_error _ _ _ hd]; rfl
    | ok v => rfl
  · rw [if_neg hm]
    rfl

theorem Index_of_lt (m : CustomTableModel) (r : Nat) (h : r < m.modelData.length) :
    m.Index (r : Int) 2 = ⟨r, 2⟩ := by
  have h1 : (r : Int) < m.rowCount := by
    simp only [CustomTableModel.rowCount]; exact_mod_cast h
  simp [CustomTableModel.Index, h1, CustomTableModel.columnCount]

theorem assignRow_of_getElem? {xs : List HTTPItem} {r : Nat} {x : HTTPItem}
    (h : xs[r]? = some x) (f : HTTPItem → HTTPItem) :
    CustomTableModel.assignRow xs (r : Int) f = .ok (xs.set r (f x)) := by
  simp only [CustomTableModel.assignRow, elemAt_of_getElem? h]
  rfl

/-- The effect of an update that goes through: the registered object and the row that `row`
resolves to both take the two responses of the update item; one signal is sent. -/
theorem editItem_eq (m : CustomTableModel) (i : Int) (a b r : Nat) (e v x : HTTPItem)
    (hreg : mapGet m.hashMap i = some a) (he : m.heap[a]? = some e)
    (hv : m.heap[b]? = some v) (hrow : m.row (some a) = .ok (r : Int))
    (hx : m.modelData[r]? = some x) :
    m.editItem (some b) i = .ok
      { heap := m.heap.set a { e with Resp := v.Resp, EditedResp := v.EditedResp },
        modelData := m.modelData.set r { x with Resp := v.Resp, EditedResp := v.EditedResp },
        hashMap := m.hashMap,
        emitted := m.emitted ++
          [Signal.dataChanged ⟨r, 2⟩ ⟨r, 2⟩ [Edit, Status, Length]] } := by
  have ha : a < m.heap.length := (List.getElem?_eq_some.mp he).1
  have hr : r < m.modelData.length := (List.getElem?_eq_some.mp hx).1
  -- the update item as read after each of the two writes through the map value
  have hv1 : ∃ v1, (m.heap.set a { e with Resp := v.Resp })[b]? = some v1 ∧
      v1.Resp = v.Resp ∧ v1.EditedResp = v.EditedResp := by
    by_cases hab : a = b
    · subst hab
      have : e = v := by rw [he] at hv; exact Option.some.inj hv
      subst this
      exact ⟨_, List.getElem?_set_self ha, rfl, rfl⟩
    · exact ⟨v, by rw [List.getElem?_set_ne hab]; exact hv, rfl, rfl⟩
  obtain ⟨v1, hv1, hv1r, hv1e⟩ := hv1
  have hv2 : ∃ v2, (m.heap.set a { e with Resp := v.Resp, EditedResp := v.EditedResp })[b]?
      = some v2 ∧ v2.Resp = v.Resp ∧ v2.EditedResp = v.EditedResp := by
    by_cases hab : a = b
    · subst hab
      exact ⟨_, List.getElem?_set_self ha, rfl, rfl⟩
    · exact ⟨v, by rw [List.getElem?_set_ne hab]; exact hv, rfl, rfl⟩
  obtain ⟨v2, hv2, hv2r, hv2e⟩ := hv2
  have he1 : (m.heap.set a { e with Resp := v.Resp })[a]? = some { e with Resp := v.Resp } :=
    List.getElem?_set_self ha
  have hx1 : (m.modelData.set r { x with Resp := v.Resp })[r]?
      = some { x with Resp := v.Resp } := List.getElem?_set_self hr
  unfold CustomTableModel.editItem
  simp only [hreg, hrow, deref_some hv, assign_some he, bind, Except.bind, deref_some hv1,
    assign_some he1, hv1e, List.set_set, deref_some hv2, hv2r, hv2e, assignRow_of_getElem? hx,
    assignRow_of_getElem? hx1, pure, Except.pure]
  rw [Index_of_lt _ r (by simpa using hr)]

/-! ## The row scan -/

theorem rowFrom_some {p : Nat} {xs : List HTTPItem} {k idx : Nat}
    (h : CustomTableModel.rowFrom p xs k = some idx) :
    k ≤ idx ∧ ∃ x, xs[idx - k]? = some x ∧ x.QObject = p ∧
      ∀ j, j < idx - k → ∀ y, xs[j]? = some y → y.QObject ≠ p := by
  induction xs generalizing k with
  | nil => simp [CustomTableModel.rowFrom] at h
  | cons item rest ih =>
    unfold CustomTableModel.rowFrom at h
    split at h
    · rename_i hp
      cases h
      exact ⟨le_refl _, item, by simp, hp, by intro j hj; omega⟩
    · rename_i hp
      obtain ⟨hk, x, hx, hxp, hfirst⟩ := ih h
      have e1 : idx - k = (idx - (k + 1)) + 1 := by omega
      refine ⟨by omega, x, ?_, hxp, ?_⟩
      · rw [e1, List.getElem?_cons_succ]; exact hx
      · intro j hj y hy
        cases j with
        | zero =>
          simp only [List.getElem?_cons_zero, Option.some.injEq] at hy
          subst hy; exact hp
        | succ j =>
          rw [List.getElem?_cons_succ] at hy
          exact hfirst j (by omega) y hy

theorem rowFrom_first {p : Nat} {xs : List HTTPItem} {r : Nat} {x : HTTPItem} (k : Nat)
    (hx : xs[r]? = some x) (hp : x.QObject = p)
    (hfirst : ∀ j, j < r → ∀ y, xs[j]? = some y → y.QObject ≠ p) :
    CustomTableModel.rowFrom p xs k = some (k + r) := by
  induction xs generalizing k r with
  | nil => simp at hx
  | cons item rest ih =>
    unfold CustomTableModel.rowFrom
    cases r with
    | zero =>
      simp only [List.getElem?_cons_zero, Option.some.injEq] at hx
      subst hx
      simp [hp]
    | succ r =>
      have h0 : item.QObject ≠ p := hfirst 0 (by omega) item (by simp)
      rw [List.getElem?_cons_succ] at hx
      rw [if_neg h0, ih (k + 1) hx (fun j hj y hy => hfirst (j + 1) (by omega) y
        (by rw [List.getElem?_cons_succ]; exact hy))]
      congr 1; omega

theorem rowFrom_none {p : Nat} {xs : List HTTPItem} {k : Nat}
    (h : CustomTableModel.rowFrom p xs k = none) : ∀ x ∈ xs, x.QObject ≠ p := by
  induction xs generalizing k with
  | nil => simp
  | cons item rest ih =>
    unfold CustomTableModel.rowFrom at h
    split at h
    · cases h
    · rename_i hp
      intro x hx
      rcases List.mem_cons.mp hx with rfl | hx
      · exact hp
      · exact ih h x hx

/-- The scan for an item answers a natural number, and an index of the slice when the slice
is not empty. -/
theorem row_spec (m : CustomTableModel) (a : Nat) (e : HTTPItem) (he : m.heap[a]? = some e) :
    ∃ r : Nat, m.row (some a) = .ok (r : Int) ∧
      (m.modelData ≠ [] → r < m.modelData.length) := by
  unfold CustomTableModel.row
  rw [rowLoop_of_Pointer (Pointer_some he)]
  cases h : CustomTableModel.rowFrom e.QObject m.modelData 0 with
  | none =>
    refine ⟨0, rfl, fun hne => ?_⟩
    exact List.length_pos.mpr hne
  | some idx =>
    refine ⟨idx, rfl, fun _ => ?_⟩
    obtain ⟨_, x, hx, _, _⟩ := rowFrom_some h
    have := (List.getElem?_eq_some.mp hx).1
    omega

/-- The scan answers `r` when row `r` is the first one with the object pointer of the entry. -/
theorem row_of_first (m : CustomTableModel) (a r : Nat) (e x : HTTPItem)
    (he : m.heap[a]? = some e) (hx : m.modelData[r]? = some x) (hp : x.QObject = e.QObject)
    (hfirst : ∀ j, j < r → ∀ y, m.modelData[j]? = some y → y.QObject ≠ e.QObject) :
    m.row (some a) = .ok (r : Int) := by
  unfold CustomTableModel.row
  rw [rowLoop_of_Pointer (Pointer_some he), rowFrom_first 0 hx hp hfirst]
  simp only [Nat.zero_add]
  rfl

/-- An update that goes through was made with a registered id and a non-nil item, and its
effect is the one of `editItem_eq`. -/
theorem editItem_inv {m m1 : CustomTableModel} {item : Ptr} {i : Int}
    (h : m.editItem item i = .ok m1) :
    ∃ (a b r : Nat) (e v x : HTTPItem), mapGet m.hashMap i = some a ∧ item = some b ∧
      m.heap[a]? = some e ∧ m.heap[b]? = some v ∧ m.row (some a) = .ok (r : Int) ∧
      m.modelData[r]? = some x ∧
      m1 = { heap := m.heap.set a { e with Resp := v.Resp, EditedResp := v.EditedResp },
             modelData := m.modelData.set r
               { x with Resp := v.Resp, EditedResp := v.EditedResp },
             hashMap := m.hashMap,
             emitted := m.emitted ++
               [Signal.dataChanged ⟨r, 2⟩ ⟨r, 2⟩ [Edit, Status, Length]] } := by
  cases hreg : mapGet m.hashMap i with
  | none => rw [editItem_unregistered m item i hreg] at h; cases h
  | some a =>
    cases hr0 : m.row (some a) with
    | error err =>
      simp [CustomTableModel.editItem, hreg, hr0, bind, Except.bind] at h
    | ok r0 =>
      cases item with
      | none => simp [CustomTableModel.editItem, hreg, hr0, deref, bind, Except.bind] at h
      | some b =>
        cases hv : m.heap[b]? with
        | none =>
          simp [CustomTableModel.editItem, hreg, hr0, deref, hv, bind, Except.bind] at h
        | some v =>
          cases he : m.heap[a]? with
          | none =>
            simp [CustomTableModel.editItem, deref, assign, hreg, hr0, hv, he, bind,
              Except.bind] at h
          | some e =>
            obtain ⟨r, hrow, _⟩ := row_spec m a e he
            cases hx : m.modelData[r]? with
            | none =>
              exfalso
              have ha : a < m.heap.length := (List.getElem?_eq_some.mp he).1
              have hv1 : ∃ v1, (m.heap.set a { e with Resp := v.Resp })[b]? = some v1 := by
                by_cases hab : a = b
                · subst hab; exact ⟨_, List.getElem?_set_self ha⟩
                · exact ⟨v, by rw [List.getElem?_set_ne hab]; exact hv⟩
              obtain ⟨v1, hv1⟩ := hv1
              have he1 : (m.heap.set a { e with Resp := v.Resp })[a]?
                  = some { e with Resp := v.Resp } := List.getElem?_set_self ha
              have hv2 : ∃ v2, ((m.heap.set a { e with Resp := v.Resp }).set a
                  { e with Resp := v.Resp, EditedResp := v1.EditedResp })[b]? = some v2 := by
                by_cases hab : a = b
                · subst hab; exact ⟨_, List.getElem?_set_self (by simpa using ha)⟩
                · exact ⟨v1, by rw [List.getElem?_set_ne hab]; exact hv1⟩
              obtain ⟨v2, hv2⟩ := hv2
              unfold CustomTableModel.editItem at h
              simp only [hreg, hrow, deref_some hv, assign_some he, bind, Except.bind,
                deref_some hv1, assign_some he1, deref_some hv2, CustomTableModel.assignRow,
                elemAt_natCast, hx] at h
              cases h
            | some x =>
              rw [editItem_eq m i a b r e v x hreg he hv hrow hx] at h
              exact ⟨a, b, r, e, v, x, rfl, rfl, he, hv, hrow, hx, (Except.ok.inj h).symm⟩

/-! ## Lookups outside the store -/

theorem oneRow_reached : fresh.addItem (some 0) 1 = .ok oneRow := by decide

theorem GetReqResp_neg (m : CustomTableModel) (i : Int) (h : i < 0) :
    m.GetReqResp i = .ok (none, none, none, none) := by
  simp [CustomTableModel.GetReqResp, not_le.mpr h, pure, Except.pure]

theorem GetReqResp_ge (m : CustomTableModel) (i : Int) (h : m.rowCount ≤ i) :
    m.GetReqResp i = .error .indexOutOfRange := by
  have h0 : i ≥ 0 := le_trans (Int.ofNat_nonneg _) h
  simp only [CustomTableModel.GetReqResp, h0, if_true, elemAt_ge _ _ h]
  rfl

theorem data_row_out_of_range (m : CustomTableModel) (index : QModelIndex)
    (h : index.row < 0 ∨ m.rowCount ≤ index.row) :
    m.data index Qt__DisplayRole = .error .indexOutOfRange := by
  have he : elemAt m.modelData index.row = .error .indexOutOfRange := by
    rcases h with h | h
    · exact elemAt_neg _ _ h
    · exact elemAt_ge _ _ h
  unfold CustomTableModel.data
  rw [if_neg (by simp [Qt__DisplayRole, Qt__TextAlignmentRole]), if_neg (by simp), he]
  rfl

theorem data_column_out_of_range (m : CustomTableModel) (index : QModelIndex)
    (hr : 0 ≤ index.row ∧ index.row < m.rowCount)
    (hc : index.column < 0 ∨ m.columnCount ≤ index.column) :
    m.data index Qt__DisplayRole = .ok .invalid := by
  obtain ⟨r, hr0⟩ := Int.eq_ofNat_of_zero_le hr.1
  have hlt : r < m.modelData.length := by
    have := hr.2
    rw [hr0] at this
    simp only [CustomTableModel.rowCount] at this
    exact_mod_cast this
  have he : elemAt m.modelData index.row = .ok m.modelData[r] := by
    rw [hr0]; exact elemAt_of_getElem? (List.getElem?_eq_getElem hlt)
  have hcol : index.column ≠ ID ∧ index.column ≠ Host ∧ index.column ≠ Method ∧
      index.column ≠ Path ∧ index.column ≠ Params ∧ index.column ≠ Edit ∧
      index.column ≠ Status ∧ index.column ≠ Length := by
    simp only [CustomTableModel.columnCount] at hc
    simp only [ID, Host, Method, Path, Params, Edit, Status, Length]
    omega
  obtain ⟨c0, c1, c2, c3, c4, c5, c6, c7⟩ := hcol
  unfold CustomTableModel.data
  rw [if_neg (by simp [Qt__DisplayRole, Qt__TextAlignmentRole]), if_neg (by simp), he]
  simp only [bind, Except.bind, if_neg c0, if_neg c1, if_neg c2, if_neg c3, if_neg c4,
    if_neg c5, if_neg c6, if_neg c7]
  rfl

/-- C1, at a concrete store: with one row registered under id 1, the call `editItem(item, 7)`
for the unregistered id 7 does not complete; it stops with a nil dereference, in the scan of
`row` for the nil map value. -/
theorem C1_editItem_unregistered_id_panics :
    mapGet oneRow.hashMap 7 = none ∧
      oneRow.editItem (some 2) 7 = .error .nilDereference := by
  decide

/-- C2, at a concrete store: with one row, `GetReqResp(1)` (the first row past the end) does
not return the four nil values; it stops with an index out of range.  A negative row does
yield them. -/
theorem C2_GetReqResp_past_end_panics :
    oneRow.rowCount = 1 ∧ oneRow.GetReqResp 1 = .error .indexOutOfRange ∧
      oneRow.GetReqResp (-1) = .ok (none, none, none, none) := by
  decide

/-- C3, at a concrete store: with one row, `data` with the display role stops with an index
out of range for the cell (1, 0) past the last row and for the invalid index (-1, -1); for a
column past the last one in an existing row it yields the empty value. -/
theorem C3_data_row_out_of_range_panics :
    oneRow.rowCount = 1 ∧
      oneRow.data ⟨1, 0⟩ Qt__DisplayRole = .error .indexOutOfRange ∧
      oneRow.data ⟨-1, -1⟩ Qt__DisplayRole = .error .indexOutOfRange ∧
      oneRow.data ⟨0, 8⟩ Qt__DisplayRole = .ok .invalid := by
  decide

/-! ## Rendering of a request -/

/-- The string form of an absolute URL `scheme://host/path?query`, with the host and the
path in their escaped form. -/
theorem URL_String_absolute (u : URL) (hs : u.Scheme ≠ []) (ho : u.Opaque = [])
    (hu : u.User = none) (hh : u.Host ≠ []) (hp : u.EscapedPath.head? = some 0x2f)
    (hf : u.ForceQuery = false) (hq : u.RawQuery ≠ []) (hfr : u.Fragment = []) :
    u.String = u.Scheme ++ lit "://" ++ escape u.Host .encodeHost ++ u.EscapedPath ++
      lit "?" ++ u.RawQuery := by
  have hpne : u.EscapedPath ≠ [] := by
    intro h; rw [h] at hp; simp at hp
  have hbuf : u.Scheme ++ lit ":" ++ lit "//" ++ escape u.Host .encodeHost ≠ [] := by
    simp [hs]
  simp only [URL.String, hs, ho, hu, hh, hp, hf, hq, hfr, hbuf, ne_eq, not_true_eq_false,
    not_false_eq_true, if_true, if_false, true_or, or_true, false_or, false_and, and_false,
    and_true, Bool.false_eq_true]
  have e1 : lit "://" = lit ":" ++ lit "//" := by decide
  rw [e1]
  simp only [List.append_assoc]

/-- What `ToString` yields for a request with an absolute URL, no header and no body: the
slice drops the scheme and two more bytes, so the second field is `/`, the host, the path and
the query. -/
theorem ToString_absolute (r : Request) (u : URL) (hurl : r.URL = some u)
    (hs : u.Scheme ≠ []) (ho : u.Opaque = []) (hu : u.User = none) (hh : u.Host ≠ [])
    (hp : u.EscapedPath.head? = some 0x2f) (hf : u.ForceQuery = false) (hq : u.RawQuery ≠ [])
    (hfr : u.Fragment = []) (hhd : r.Headers = []) (hb : r.Body = []) :
    Request.ToString (some r) = .ok (r.Method ++ lit " " ++
      (lit "/" ++ escape u.Host .encodeHost ++ u.EscapedPath ++ lit "?" ++ u.RawQuery) ++
      lit " " ++ r.Proto ++ lit "\nHost: " ++ r.Host ++ lit "\n") := by
  have hstr := URL_String_absolute u hs ho hu hh hp hf hq hfr
  have e1 : lit "://" = lit ":/" ++ lit "/" := by decide
  have hlen : (u.Scheme ++ lit ":/").length = u.Scheme.length + 2 := by
    rw [List.length_append]; rfl
  have hdrop : sliceFrom u.String (u.Scheme.length + 2)
      = .ok (lit "/" ++ escape u.Host .encodeHost ++ u.EscapedPath ++ lit "?" ++
          u.RawQuery) := by
    have hs2 : u.String = (u.Scheme ++ lit ":/") ++
        (lit "/" ++ escape u.Host .encodeHost ++ u.EscapedPath ++ lit "?" ++ u.RawQuery) := by
      rw [hstr, e1]; simp only [List.append_assoc]
    unfold sliceFrom
    rw [hs2, ← hlen, List.drop_left, if_pos]
    rw [List.length_append (u.Scheme ++ lit ":/")]; omega
  simp only [Request.ToString, fmtV, hurl, field, bind, Except.bind, hdrop, hhd, hb,
    headerLines, List.foldl_nil, List.length_nil, gt_iff_lt, lt_self_iff_false, if_false,
    List.append_nil, pure, Except.pure]

/-- C4, at the request of the claim: the request GET, HTTP/1.1, host example.com, URL
http://example.com/a?b=1 renders with `/example.com/a?b=1` as its second field (the host is
not stripped), not as `GET /a?b=1 HTTP/1.1`. -/
theorem C4_ToString_keeps_host :
    exampleURL.String = lit "http://example.com/a?b=1" ∧
      Request.ToString (some exampleRequest)
        = .ok (lit "GET /example.com/a?b=1 HTTP/1.1\nHost: example.com\n") ∧
      Request.ToString (some exampleRequest)
        ≠ .ok (lit "GET /a?b=1 HTTP/1.1\nHost: example.com\n") := by
  decide

/-! ## The cells an update touches -/

theorem twoRows_reached : run fresh [.add (some 0) 1, .add (some 1) 2] = .ok twoRows := by
  decide

theorem data_Status (m : CustomTableModel) (r : Nat) (x : HTTPItem)
    (hx : m.modelData[r]? = some x) :
    m.data ⟨r, Status⟩ Qt__DisplayRole = match x.Resp with
      | some resp => .ok (.string resp.Status)
      | none => .ok .invalid := by
  unfold CustomTableModel.data
  rw [if_neg (by simp [Qt__DisplayRole, Qt__TextAlignmentRole]), if_neg (by simp)]
  simp only [elemAt_of_getElem? hx, bind, Except.bind]
  rw [if_neg (by decide), if_neg (by decide), if_neg (by decide), if_neg (by decide),
    if_neg (by decide), if_neg (by decide), if_pos trivial]
  cases x.Resp <;> rfl

theorem data_Length (m : CustomTableModel) (r : Nat) (x : HTTPItem)
    (hx : m.modelData[r]? = some x) :
    m.data ⟨r, Length⟩ Qt__DisplayRole = match x.Resp with
      | some resp => .ok (.string (fmtD resp.ContentLength))
      | none => .ok .invalid := by
  unfold CustomTableModel.data
  rw [if_neg (by simp [Qt__DisplayRole, Qt__TextAlignmentRole]), if_neg (by simp)]
  simp only [elemAt_of_getElem? hx, bind, Except.bind]
  rw [if_neg (by decide), if_neg (by decide), if_neg (by decide), if_neg (by decide),
    if_neg (by decide), if_neg (by decide), if_neg (by decide), if_pos trivial]
  cases x.Resp <;> rfl

theorem data_Edit (m : CustomTableModel) (r : Nat) (x : HTTPItem)
    (hx : m.modelData[r]? = some x) :
    m.data ⟨r, Edit⟩ Qt__DisplayRole =
      if x.EditedReq ≠ none ∨ x.EditedResp ≠ none then .ok (.string (lit "✓"))
      else .ok (.string (lit "")) := by
  unfold CustomTableModel.data
  rw [if_neg (by simp [Qt__DisplayRole, Qt__TextAlignmentRole]), if_neg (by simp)]
  simp only [elemAt_of_getElem? hx, bind, Except.bind]
  rw [if_neg (by decide), if_neg (by decide), if_neg (by decide), if_neg (by decide),
    if_neg (by decide), if_pos trivial]
  split <;> rfl

/-- C5 as stated fails: the same item is added under id 1 (row 0) and under id 2 (row 1);
the update `editItem(item, 2)` with a response `200 OK` lands on row 0, the first row with
the object pointer of the entry, and the cells of row 1 stay empty. -/
theorem C5_edit_lands_on_earlier_row :
    (run fresh [.add (some 0) 1, .add (some 0) 2] >>= fun m => pure m.rowCount) = .ok 2 ∧
    (run fresh [.add (some 0) 1, .add (some 0) 2, .edit (some 2) 2] >>= fun m =>
      m.data ⟨1, Status⟩ Qt__DisplayRole) = .ok .invalid ∧
    (run fresh [.add (some 0) 1, .add (some 0) 2, .edit (some 2) 2] >>= fun m =>
      m.data ⟨1, Length⟩ Qt__DisplayRole) = .ok .invalid ∧
    (run fresh [.add (some 0) 1, .add (some 0) 2, .edit (some 2) 2] >>= fun m =>
      m.data ⟨1, Edit⟩ Qt__DisplayRole) = .ok (.string (lit "")) ∧
    (run fresh [.add (some 0) 1, .add (some 0) 2, .edit (some 2) 2] >>= fun m =>
      m.data ⟨0, Status⟩ Qt__DisplayRole) = .ok (.string (lit "200 OK")) := by
  decide

/-- C5, amended: let id be registered to an entry, and let row r hold the copy of that entry
and be the first row with the entry's object pointer.  Then `editItem(item, id)` with a
non-nil item completes, and afterwards `data(r, Status)` is `item.Resp.Status` and
`data(r, Length)` the decimal string of `item.Resp.ContentLength` when `item.Resp` is present,
and `data(r, Edit)` is the check mark when `item.EditedResp` is present. -/
theorem C5_editItem_updates_cells (m : CustomTableModel) (i : Int) (a b r : Nat)
    (e v x : HTTPItem)
    (hreg : m.hashMap.lookup i = some (some a)) (he : m.heap[a]? = some e)
    (hv : m.heap[b]? = some v) (hx : m.modelData[r]? = some x)
    (hp : x.QObject = e.QObject)
    (hfirst : ∀ j, j < r → ∀ y, m.modelData[j]? = some y → y.QObject ≠ e.QObject) :
    ∃ m1, m.editItem (some b) i = .ok m1 ∧
      (∀ resp, v.Resp = some resp →
        m1.data ⟨r, Status⟩ Qt__DisplayRole = .ok (.string resp.Status) ∧
        m1.data ⟨r, Length⟩ Qt__DisplayRole = .ok (.string (fmtD resp.ContentLength))) ∧
      (v.EditedResp ≠ none →
        m1.data ⟨r, Edit⟩ Qt__DisplayRole = .ok (.string (lit "✓"))) := by
  have hget : mapGet m.hashMap i = some a := by simp [mapGet, hreg]
  have hrow := row_of_first m a r e x he hx hp hfirst
  have hr : r < m.modelData.length := (List.getElem?_eq_some.mp hx).1
  refine ⟨_, editItem_eq m i a b r e v x hget he hv hrow hx, ?_, ?_⟩
  · intro resp hresp
    constructor
    · rw [data_Status _ r _ (List.getElem?_set_self hr)]
      simp only [hresp]
    · rw [data_Length _ r _ (List.getElem?_set_self hr)]
      simp only [hresp]
  · intro hed
    rw [data_Edit _ r _ (List.getElem?_set_self hr)]
    simp only [ne_eq, hed, not_false_eq_true, or_true, if_true]

/-- C5, amended, at the sample store: id 2 sits in row 1, the only row with its object
pointer, and is updated with the third sample item. -/
theorem C5_editItem_updates_cells_witness :
    ∃ m1, twoRows.editItem (some 2) 2 = .ok m1 ∧
      (∀ resp, (some exampleResponse) = some resp →
        m1.data ⟨(1 : Nat), Status⟩ Qt__DisplayRole = .ok (.string resp.Status) ∧
        m1.data ⟨(1 : Nat), Length⟩ Qt__DisplayRole
          = .ok (.string (fmtD resp.ContentLength))) ∧
      ((some exampleResponse) ≠ none →
        m1.data ⟨(1 : Nat), Edit⟩ Qt__DisplayRole = .ok (.string (lit "✓"))) :=
  C5_editItem_updates_cells twoRows 2 1 2 1
    { QObject := 0x2000, ID := 2, Req := some exampleRequest }
    { QObject := 0x3000, ID := 2, Req := some exampleRequest, Resp := some exampleResponse,
      EditedResp := some exampleResponse }
    { QObject := 0x2000, ID := 2, Req := some exampleRequest }
    (by decide) (by decide) (by decide) (by decide) (by decide)
    (by
      intro j hj y hy
      have hj0 : j = 0 := by omega
      subst hj0
      have hy0 : y = { QObject := 0x1000, ID := 1, Req := some exampleRequest } := by
        have h0 : twoRows.modelData[0]?
            = some { QObject := 0x1000, ID := 1, Req := some exampleRequest } := by decide
        rw [h0] at hy
        exact (Option.some.inj hy).symm
      subst hy0
      decide)

/-! ## Facts about the map, `addItem` and `clearHistory` -/

theorem lookup_filter_ne (h : List (Int × Ptr)) (i k : Int) (hk : k ≠ i) :
    (h.filter (fun e => e.1 ≠ i)).lookup k = h.lookup k := by
  induction h with
  | nil => rfl
  | cons e rest ih =>
    obtain ⟨k1, p1⟩ := e
    by_cases h1 : k1 = i
    · subst h1
      have hb : (k == k1) = false := by simpa using hk
      have hd : decide ((k1, p1).1 ≠ k1) = false := by simp
      rw [List.filter_cons, if_neg (by simp [hd]), List.lookup_cons, hb, ih]
    · have hd : decide ((k1, p1).1 ≠ i) = true := by simpa using h1
      rw [List.filter_cons, if_pos hd, List.lookup_cons, List.lookup_cons, ih]

theorem lookup_mapSet (h : List (Int × Ptr)) (i k : Int) (p : Ptr) :
    (mapSet h i p).lookup k = if k = i then some p else h.lookup k := by
  unfold mapSet
  by_cases hk : k = i
  · subst hk; simp
  · have hb : (k == i) = false := by simpa using hk
    rw [List.lookup_cons, hb, if_neg hk]
    exact lookup_filter_ne h i k hk

theorem addItem_eq (m : CustomTableModel) (i : Int) (a : Nat) (x : HTTPItem)
    (hx : m.heap[a]? = some x) :
    m.addItem (some a) i = .ok
      { heap := m.heap,
        modelData := m.modelData ++ [x],
        hashMap := mapSet m.hashMap i (some a),
        emitted := m.emitted ++
          [Signal.beginInsertRows m.modelData.length m.modelData.length] ++
          [Signal.endInsertRows] } := by
  simp only [CustomTableModel.addItem, deref_some hx, bind, Except.bind, pure, Except.pure]

theorem addItem_inv {m m1 : CustomTableModel} {item : Ptr} {i : Int}
    (h : m.addItem item i = .ok m1) :
    ∃ (a : Nat) (x : HTTPItem), item = some a ∧ m.heap[a]? = some x ∧
      m1 = { heap := m.heap,
             modelData := m.modelData ++ [x],
             hashMap := mapSet m.hashMap i (some a),
             emitted := m.emitted ++
               [Signal.beginInsertRows m.modelData.length m.modelData.length] ++
               [Signal.endInsertRows] } := by
  cases item with
  | none => simp [CustomTableModel.addItem, deref, bind, Except.bind] at h
  | some a =>
    cases hx : m.heap[a]? with
    | none => simp [CustomTableModel.addItem, deref, hx, bind, Except.bind] at h
    | some x =>
      rw [addItem_eq m i a x hx] at h
      exact ⟨a, x, rfl, hx, (Except.ok.inj h).symm⟩

theorem clearHistory_eq (m : CustomTableModel) :
    m.clearHistory =
      { heap := m.heap, modelData := [], hashMap := [],
        emitted := m.emitted ++ [Signal.beginRemoveRows 0 m.modelData.length] ++
          [Signal.endRemoveRows] } := rfl

theorem map_set_of_eq {β : Type} (f : HTTPItem → β) {l : List HTTPItem} {r : Nat}
    {x y : HTTPItem} (hx : l[r]? = some x) (hf : f y = f x) :
    (l.set r y).map f = l.map f := by
  apply List.ext_getElem?
  intro n
  by_cases hn : r = n
  · subst hn
    have hr : r < l.length := (List.getElem?_eq_some.mp hx).1
    rw [List.getElem?_map, List.getElem?_map, List.getElem?_set_self hr, hx]
    simp [hf]
  · rw [List.getElem?_map, List.getElem?_map, List.getElem?_set_ne hn]

/-- An update keeps the index, the number of rows and the frame of every row and object. -/
theorem editItem_frame {m m1 : CustomTableModel} {item : Ptr} {i : Int}
    (h : m.editItem item i = .ok m1) :
    m1.hashMap = m.hashMap ∧ m1.heap.map frame = m.heap.map frame ∧
      m1.modelData.map frame = m.modelData.map frame ∧
      m1.modelData.length = m.modelData.length ∧ m1.heap.length = m.heap.length := by
  obtain ⟨a, b, r, e, v, x, _, _, he, _, _, hx, rfl⟩ := editItem_inv h
  refine ⟨rfl, map_set_of_eq frame he rfl, map_set_of_eq frame hx rfl, ?_, ?_⟩ <;> simp

/-! ## The consistency invariant -/

theorem frame_ID {x y : HTTPItem} (h : frame x = frame y) : x.ID = y.ID := by
  simp only [frame, Prod.mk.injEq] at h
  exact h.2.1

theorem getElem?_of_map_frame {l1 l2 : List HTTPItem} (h : l1.map frame = l2.map frame)
    {a : Nat} {e : HTTPItem} (he : l2[a]? = some e) :
    ∃ e1, l1[a]? = some e1 ∧ frame e1 = frame e := by
  have h1 : (l1.map frame)[a]? = some (frame e) := by
    rw [h, List.getElem?_map, he]; rfl
  rw [List.getElem?_map] at h1
  cases h2 : l1[a]? with
  | none => rw [h2] at h1; cases h1
  | some e1 =>
    rw [h2] at h1
    exact ⟨e1, rfl, Option.some.inj h1⟩

theorem mem_of_map_frame {l1 l2 : List HTTPItem} (h : l1.map frame = l2.map frame)
    {x : HTTPItem} (hx : x ∈ l2) : ∃ x1, x1 ∈ l1 ∧ frame x1 = frame x := by
  have h1 : frame x ∈ l1.map frame := by
    rw [h]; exact List.mem_map.mpr ⟨x, hx, rfl⟩
  exact List.mem_map.mp h1

/-- Consistency carries over to a state with the same index and the same frames. -/
theorem Consistent_of_frame {m m1 : CustomTableModel} (hc : Consistent m)
    (hmap : m1.hashMap = m.hashMap) (hheap : m1.heap.map frame = m.heap.map frame)
    (hrows : m1.modelData.map frame = m.modelData.map frame) : Consistent m1 := by
  constructor
  · intro k p hk
    rw [hmap] at hk
    obtain ⟨a, e, hp, he, hid, x, hx, hxe⟩ := hc.1 k p hk
    obtain ⟨e1, he1, hf1⟩ := getElem?_of_map_frame hheap he
    obtain ⟨x1, hx1, hfx1⟩ := mem_of_map_frame hrows hx
    exact ⟨a, e1, hp, he1, by rw [frame_ID hf1]; exact hid, x1, hx1,
      by rw [hfx1, hxe, hf1]⟩
  · intro x1 hx1
    obtain ⟨x, hx, hfx⟩ := mem_of_map_frame hrows.symm hx1
    obtain ⟨p, hp⟩ := hc.2 x hx
    exact ⟨p, by rw [hmap, ← frame_ID hfx]; exact hp⟩

theorem Consistent_init (m : CustomTableModel) : Consistent m.init := by
  constructor
  · intro k p hk
    simp [CustomTableModel.init] at hk
  · intro x hx
    simp [CustomTableModel.init] at hx

theorem Consistent_clearHistory (m : CustomTableModel) : Consistent m.clearHistory := by
  rw [clearHistory_eq]
  constructor
  · intro k p hk
    simp at hk
  · intro x hx
    simp at hx

/-- An append under the item's own id keeps the index and the rows consistent. -/
theorem Consistent_addItem {m m1 : CustomTableModel} {a : Nat} {i : Int} (hc : Consistent m)
    (hid : ∀ e, m.heap[a]? = some e → e.ID = i) (h : m.addItem (some a) i = .ok m1) :
    Consistent m1 := by
  obtain ⟨a1, x, ha, hx, rfl⟩ := addItem_inv h
  cases ha
  constructor
  · intro k p hk
    simp only [lookup_mapSet] at hk
    by_cases hki : k = i
    · subst hki
      rw [if_pos rfl] at hk
      cases hk
      exact ⟨a, x, rfl, hx, hid x hx, x, by simp, rfl⟩
    · rw [if_neg hki] at hk
      obtain ⟨a2, e, hp, he, hide, y, hy, hye⟩ := hc.1 k p hk
      exact ⟨a2, e, hp, he, hide, y, List.mem_append_left _ hy, hye⟩
  · intro y hy
    simp only [lookup_mapSet]
    by_cases hyi : y.ID = i
    · exact ⟨some a, by rw [if_pos hyi]⟩
    · rw [if_neg hyi]
      rcases List.mem_append.mp hy with hy | hy
      · exact hc.2 y hy
      · simp only [List.mem_singleton] at hy
        subst hy
        exact absurd (hid y hx) hyi

/-- The invariant along a run: consistency is kept as long as every append is made under the
item's own id. -/
theorem Consistent_run (heap0 : List HTTPItem) (ops : List Op) :
    ∀ (m m1 : CustomTableModel), Consistent m → m.heap.map frame = heap0.map frame →
      (∀ a i, Op.add (some a) i ∈ ops → ∀ e, heap0[a]? = some e → e.ID = i) →
      run m ops = .ok m1 → Consistent m1 := by
  induction ops with
  | nil =>
    intro m m1 hc _ _ hrun
    simp only [run, pure, Except.pure] at hrun
    cases hrun
    exact hc
  | cons op rest ih =>
    intro m m1 hc hheap hkeys hrun
    unfold run at hrun
    cases hs : step m op with
    | error err => rw [hs] at hrun; cases hrun
    | ok m2 =>
      rw [hs] at hrun
      have hrest : ∀ a i, Op.add (some a) i ∈ rest → ∀ e, heap0[a]? = some e → e.ID = i :=
        fun a i hmem => hkeys a i (List.mem_cons_of_mem _ hmem)
      cases op with
      | add item i =>
        simp only [step] at hs
        obtain ⟨a, x, ha, hx, hm2⟩ := addItem_inv hs
        subst ha
        have hid : ∀ e, m.heap[a]? = some e → e.ID = i := by
          intro e he
          obtain ⟨e0, he0, hf0⟩ := getElem?_of_map_frame hheap.symm he
          rw [← frame_ID hf0]
          exact hkeys a i (List.mem_cons_self _ _) e0 he0
        have hc2 := Consistent_addItem hc hid hs
        have hheap2 : m2.heap.map frame = heap0.map frame := by rw [hm2]; exact hheap
        exact ih m2 m1 hc2 hheap2 hrest hrun
      | edit item i =>
        simp only [step] at hs
        obtain ⟨hmap, hh, hrows, _, _⟩ := editItem_frame hs
        exact ih m2 m1 (Consistent_of_frame hc hmap hh hrows) (by rw [hh]; exact hheap)
          hrest hrun
      | clear =>
        simp only [step, pure, Except.pure] at hs
        cases hs
        exact ih _ m1 (Consistent_clearHistory m) hheap hrest hrun

/-- C6 as stated fails: one `addItem` call that registers the item with `ID` 1 under the key 7
leaves a key whose entry has another `ID`, and a row whose `ID` is no key. -/
theorem C6_key_need_not_be_ID :
    run fresh [.add (some 0) 7] = .ok mismatched ∧ ¬ Consistent mismatched := by
  refine ⟨by decide, ?_⟩
  intro hc
  obtain ⟨p, hp⟩ := hc.2 { QObject := 0x1000, ID := 1, Req := some exampleRequest }
    (by simp [mismatched])
  have hnone : mismatched.hashMap.lookup
      ({ QObject := 0x1000, ID := 1, Req := some exampleRequest } : HTTPItem).ID = none := by
    decide
  rw [hnone] at hp
  cases hp

/-- C6, amended: in every state reached from a freshly initialised store by a sequence of
`addItem`, `editItem` and `clearHistory` calls in which every `addItem(item, i)` is made with
`i = item.ID`, every key of `hashMap` maps to an entry whose `ID` is the key and of which some
row of `modelData` is a copy, and the `ID` of every row of `modelData` is a key of `hashMap`. -/
theorem C6_consistent_when_keyed_by_ID (m0 m : CustomTableModel) (ops : List Op)
    (hkeys : ∀ a i, Op.add (some a) i ∈ ops → ∀ e, m0.heap[a]? = some e → e.ID = i)
    (hrun : run m0.init ops = .ok m) : Consistent m :=
  Consistent_run m0.heap ops m0.init m (Consistent_init m0) rfl hkeys hrun

/-- C6, amended, at the sample store: the two sample items are added under their own ids. -/
theorem C6_consistent_when_keyed_by_ID_witness : Consistent twoRows :=
  C6_consistent_when_keyed_by_ID { heap := exampleHeap } twoRows
    [.add (some 0) 1, .add (some 1) 2]
    (by
      intro a i hmem e he
      simp only [List.mem_cons, Op.add.injEq, Option.some.injEq, List.mem_singleton,
        List.not_mem_nil, or_false] at hmem
      rcases hmem with ⟨rfl, rfl⟩ | ⟨rfl, rfl⟩
      · simp only [exampleHeap, List.getElem?_cons_zero, Option.some.injEq] at he
        subst he; rfl
      · simp only [exampleHeap, List.getElem?_cons_succ, List.getElem?_cons_zero,
          Option.some.injEq] at he
        subst he; rfl)
    (by decide)

/-! ## What an update does to the responses -/

/-- C7 as stated fails: the third sample item, which carries a response and an edited
response, is added under id 2; the update `editItem(item, 2)` with the first sample item,
which carries neither, leaves row 0 and the registered object without both. -/
theorem C7_update_removes_response :
    (run fresh [.add (some 2) 2] >>= fun m => m.GetReqResp 0)
      = .ok (some exampleRequest, none, some exampleResponse, some exampleResponse) ∧
    (run fresh [.add (some 2) 2, .edit (some 0) 2] >>= fun m => m.GetReqResp 0)
      = .ok (some exampleRequest, none, none, none) ∧
    (run fresh [.add (some 2) 2, .edit (some 0) 2] >>= fun m =>
      pure (m.heap.map fun e => (e.Resp, e.EditedResp)))
      = .ok [(none, none), (none, none), (none, none)] := by
  refine ⟨by decide, by decide, by decide⟩

/-- C7, amended: on a store with at least one row, `editItem(item, id)` with a registered id
and a non-nil item completes, and afterwards the registered entry and the row the update
resolves to carry exactly `item.Resp` and `item.EditedResp`; so a response that was set stays
present when the update item carries one and becomes absent when it carries none. -/
theorem C7_editItem_takes_item_responses (m : CustomTableModel) (i : Int) (a b : Nat)
    (e v : HTTPItem)
    (hreg : m.hashMap.lookup i = some (some a)) (he : m.heap[a]? = some e)
    (hv : m.heap[b]? = some v) (hrows : m.modelData ≠ []) :
    ∃ (m1 : CustomTableModel) (r : Nat) (e1 x1 : HTTPItem),
      m.editItem (some b) i = .ok m1 ∧ m.row (some a) = .ok (r : Int) ∧
      m1.heap[a]? = some e1 ∧ e1.Resp = v.Resp ∧ e1.EditedResp = v.EditedResp ∧
      m1.modelData[r]? = some x1 ∧ x1.Resp = v.Resp ∧ x1.EditedResp = v.EditedResp := by
  have hget : mapGet m.hashMap i = some a := by simp [mapGet, hreg]
  obtain ⟨r, hrow, hlt⟩ := row_spec m a e he
  have hr : r < m.modelData.length := hlt hrows
  have ha : a < m.heap.length := (List.getElem?_eq_some.mp he).1
  have hx : m.modelData[r]? = some m.modelData[r] := List.getElem?_eq_getElem hr
  exact ⟨_, r, _, _, editItem_eq m i a b r e v _ hget he hv hrow hx, hrow,
    List.getElem?_set_self ha, rfl, rfl, List.getElem?_set_self hr, rfl, rfl⟩

/-- C7, amended, at the sample store: id 2 is updated with the third sample item. -/
theorem C7_editItem_takes_item_responses_witness :
    ∃ (m1 : CustomTableModel) (r : Nat) (e1 x1 : HTTPItem),
      twoRows.editItem (some 2) 2 = .ok m1 ∧ twoRows.row (some 1) = .ok (r : Int) ∧
      m1.heap[1]? = some e1 ∧ e1.Resp = some exampleResponse ∧
      e1.EditedResp = some exampleResponse ∧
      m1.modelData[r]? = some x1 ∧ x1.Resp = some exampleResponse ∧
      x1.EditedResp = some exampleResponse :=
  C7_editItem_takes_item_responses twoRows 2 1 2
    { QObject := 0x2000, ID := 2, Req := some exampleRequest }
    { QObject := 0x3000, ID := 2, Req := some exampleRequest, Resp := some exampleResponse,
      EditedResp := some exampleResponse }
    (by decide) (by decide) (by decide) (by decide)

/-! ## Clearing -/

/-- C8, at a concrete store and in general: `clearHistory` empties `modelData` and `hashMap`,
and the removal it announces runs from row 0 to row `n` (the row count), one row past the
last row `n - 1`; with two rows the announced range is rows 0 to 2. -/
theorem C8_clearHistory_announces_one_row_too_many :
    (∀ m : CustomTableModel,
      m.clearHistory.modelData = [] ∧ m.clearHistory.hashMap = [] ∧
      m.clearHistory.emitted = m.emitted ++
        [Signal.beginRemoveRows 0 m.rowCount, Signal.endRemoveRows]) ∧
    twoRows.rowCount = 2 ∧
    twoRows.clearHistory.emitted = twoRows.emitted ++
      [Signal.beginRemoveRows 0 2, Signal.endRemoveRows] := by
  refine ⟨fun m => ⟨rfl, rfl, ?_⟩, by decide, by decide⟩
  rw [clearHistory_eq]
  simp [CustomTableModel.rowCount]

/-! ## Reading back an appended row -/

/-- C10: on a store with n rows, `addItem(item, id)` with a non-nil item completes, and
afterwards `GetReqResp(n)` returns `(item.Req, item.EditedReq, item.Resp, item.EditedResp)`. -/
theorem C10_GetReqResp_after_addItem (m : CustomTableModel) (i : Int) (a : Nat)
    (x : HTTPItem) (hx : m.heap[a]? = some x) :
    ∃ m1, m.addItem (some a) i = .ok m1 ∧
      m1.GetReqResp m.rowCount = .ok (x.Req, x.EditedReq, x.Resp, x.EditedResp) := by
  refine ⟨_, addItem_eq m i a x hx, ?_⟩
  have hget : (m.modelData ++ [x])[m.modelData.length]? = some x := by simp
  have h0 : m.rowCount ≥ 0 := Int.ofNat_nonneg _
  simp only [CustomTableModel.GetReqResp, h0, if_true]
  simp only [CustomTableModel.rowCount, elemAt_of_getElem? hget, bind, Except.bind]
  rfl

/-- C10 at the sample store: the third sample item is appended to the store of two rows. -/
theorem C10_GetReqResp_after_addItem_witness :
    ∃ m1, twoRows.addItem (some 2) 5 = .ok m1 ∧
      m1.GetReqResp twoRows.rowCount
        = .ok (some exampleRequest, none, some exampleResponse, some exampleResponse) :=
  C10_GetReqResp_after_addItem twoRows 5 2
    { QObject := 0x3000, ID := 2, Req := some exampleRequest, Resp := some exampleResponse,
      EditedResp := some exampleResponse }
    (by decide)

/-! ## The row count along a run -/

theorem afterLastClear_of_not_mem (ops : List Op) (h : Op.clear ∉ ops) :
    afterLastClear ops = ops := by
  cases ops with
  | nil => rfl
  | cons op rest =>
    have h1 : Op.clear ∉ rest := fun hm => h (List.mem_cons_of_mem _ hm)
    have h2 : op ≠ Op.clear := fun he => h (by rw [he]; exact List.mem_cons_self _ _)
    simp [afterLastClear, h1, h2]

theorem countFrom_eq (ops : List Op) : ∀ n : Nat,
    countFrom n ops = if Op.clear ∈ ops then addsSinceClear ops else n + addsSinceClear ops := by
  induction ops with
  | nil => intro n; simp [countFrom, addsSinceClear, afterLastClear]
  | cons op rest ih =>
    intro n
    by_cases hc : Op.clear ∈ rest
    · have hmem : Op.clear ∈ op :: rest := List.mem_cons_of_mem _ hc
      have hsame : addsSinceClear (op :: rest) = addsSinceClear rest := by
        simp [addsSinceClear, afterLastClear, hc]
      rw [if_pos hmem, hsame]
      cases op <;> simp only [countFrom] <;> rw [ih, if_pos hc]
    · have hrest : addsSinceClear rest = rest.countP isAdd := by
        simp [addsSinceClear, afterLastClear_of_not_mem rest hc]
      cases op with
      | add item i =>
        have hmem : Op.clear ∉ Op.add item i :: rest := by simp [hc]
        have hl : addsSinceClear (Op.add item i :: rest) = rest.countP isAdd + 1 := by
          simp [addsSinceClear, afterLastClear, hc, isAdd]
        simp only [countFrom]
        rw [ih, if_neg hc, if_neg hmem, hl, hrest]
        omega
      | edit item i =>
        have hmem : Op.clear ∉ Op.edit item i :: rest := by simp [hc]
        have hl : addsSinceClear (Op.edit item i :: rest) = rest.countP isAdd := by
          simp [addsSinceClear, afterLastClear, hc, isAdd]
        simp only [countFrom]
        rw [ih, if_neg hc, if_neg hmem, hl, hrest]
      | clear =>
        have hmem : Op.clear ∈ Op.clear :: rest := List.mem_cons_self _ _
        have hl : addsSinceClear (Op.clear :: rest) = rest.countP isAdd := by
          simp [addsSinceClear, afterLastClear, hc]
        simp only [countFrom]
        rw [ih, if_neg hc, if_pos hmem, hl, hrest]
        omega

theorem validPtr_elim {heap : List HTTPItem} {item : Ptr} (h : validPtr heap item = true) :
    ∃ (a : Nat) (x : HTTPItem), item = some a ∧ heap[a]? = some x := by
  cases item with
  | none => simp [validPtr] at h
  | some a =>
    have ha : a < heap.length := by simpa [validPtr] using h
    exact ⟨a, heap[a], rfl, List.getElem?_eq_getElem ha⟩

theorem WellFormed_init (m : CustomTableModel) : WellFormed m.init := by
  intro k p hk
  simp [CustomTableModel.init] at hk

/-- An allowed call on a well-formed store completes, leaves a well-formed store, and changes
the number of rows as `countFrom` counts it. -/
theorem step_allowed (m : CustomTableModel) (op : Op) (hw : WellFormed m)
    (ha : allowed m op = true) :
    ∃ m1, step m op = .ok m1 ∧ WellFormed m1 ∧
      ∀ rest, countFrom m1.modelData.length rest = countFrom m.modelData.length (op :: rest) := by
  cases op with
  | add item i =>
    obtain ⟨a, x, rfl, hx⟩ := validPtr_elim (by simpa [allowed] using ha)
    refine ⟨_, addItem_eq m i a x hx, ?_, ?_⟩
    · intro k p hk
      simp only [lookup_mapSet] at hk
      refine ⟨?_, by simp⟩
      by_cases hki : k = i
      · rw [if_pos hki] at hk
        cases hk
        exact ⟨a, rfl, (List.getElem?_eq_some.mp hx).1⟩
      · rw [if_neg hki] at hk
        exact (hw k p hk).1
    · intro rest
      simp [countFrom]
  | edit item i =>
    simp only [allowed, Bool.and_eq_true] at ha
    obtain ⟨b, v, rfl, hv⟩ := validPtr_elim ha.1
    obtain ⟨p, hp⟩ := Option.isSome_iff_exists.mp ha.2
    obtain ⟨⟨a, rfl, hlt⟩, hne⟩ := hw i p hp
    have hget : mapGet m.hashMap i = some a := by simp [mapGet, hp]
    have he : m.heap[a]? = some m.heap[a] := List.getElem?_eq_getElem hlt
    obtain ⟨r, hrow, hr⟩ := row_spec m a _ he
    have hr : r < m.modelData.length := hr hne
    have hx : m.modelData[r]? = some m.modelData[r] := List.getElem?_eq_getElem hr
    have hs := editItem_eq m i a b r _ v _ hget he hv hrow hx
    refine ⟨_, hs, ?_, ?_⟩
    · intro k q hk
      obtain ⟨⟨a2, hq, hlt2⟩, hne2⟩ := hw k q hk
      refine ⟨⟨a2, hq, by simpa using hlt2⟩, ?_⟩
      intro hnil
      have hlen := congrArg List.length hnil
      simp only [List.length_set, List.length_nil] at hlen
      exact hne2 (List.length_eq_zero.mp hlen)
    · intro rest
      simp [countFrom]
  | clear =>
    refine ⟨_, rfl, ?_, ?_⟩
    · intro k p hk
      simp [clearHistory_eq] at hk
    · intro rest
      simp [countFrom, clearHistory_eq]

theorem run_admissible (ops : List Op) : ∀ m : CustomTableModel, WellFormed m →
    admissible m ops = true →
    ∃ m1, run m ops = .ok m1 ∧ m1.modelData.length = countFrom m.modelData.length ops := by
  induction ops with
  | nil =>
    intro m _ _
    exact ⟨m, rfl, rfl⟩
  | cons op rest ih =>
    intro m hw hadm
    simp only [admissible, Bool.and_eq_true] at hadm
    obtain ⟨m1, hs, hw1, hcount⟩ := step_allowed m op hw hadm.1
    have hadm1 : admissible m1 rest = true := by
      have := hadm.2
      rw [hs] at this
      exact this
    obtain ⟨m2, hrun, hlen⟩ := ih m1 hw1 hadm1
    refine ⟨m2, ?_, ?_⟩
    · simp only [run, hs]
      exact hrun
    · rw [hlen, hcount]

/-- C9: every sequence of `addItem`, `editItem` and `clearHistory` calls with non-nil items
and with `editItem` on registered ids, applied to a freshly initialised store, completes, and
`rowCount` then returns the number of `addItem` calls made after the last `clearHistory` (all
of them when there is none); from the state reached, `clearHistory` leaves `rowCount` 0 and an
`editItem` that completes leaves it unchanged. -/
theorem C9_rowCount_counts_appends (m0 : CustomTableModel) (ops : List Op)
    (hadm : admissible m0.init ops = true) :
    ∃ m, run m0.init ops = .ok m ∧ m.rowCount = (addsSinceClear ops : Int) ∧
      m.clearHistory.rowCount = 0 ∧
      ∀ item i m1, m.editItem item i = .ok m1 → m1.rowCount = m.rowCount := by
  obtain ⟨m, hrun, hlen⟩ := run_admissible ops m0.init (WellFormed_init m0) hadm
  refine ⟨m, hrun, ?_, rfl, ?_⟩
  · have h0 : m0.init.modelData.length = 0 := rfl
    rw [h0, countFrom_eq] at hlen
    have : m.modelData.length = addsSinceClear ops := by
      split at hlen
      · exact hlen
      · omega
    simp only [CustomTableModel.rowCount, this]
  · intro item i m1 h
    obtain ⟨_, _, _, hl, _⟩ := editItem_frame h
    simp only [CustomTableModel.rowCount, hl]

/-- C9 at the sample store: two appends and an update, a clear, then one append. -/
theorem C9_rowCount_counts_appends_witness :
    ∃ m, run (CustomTableModel.init { heap := exampleHeap })
        [.add (some 0) 1, .add (some 1) 2, .edit (some 2) 2, .clear, .add (some 2) 3] = .ok m ∧
      m.rowCount = (addsSinceClear
        [.add (some 0) 1, .add (some 1) 2, .edit (some 2) 2, .clear, .add (some 2) 3] : Int) ∧
      m.clearHistory.rowCount = 0 ∧
      ∀ item i m1, m.editItem item i = .ok m1 → m1.rowCount = m.rowCount :=
  C9_rowCount_counts_appends { heap := exampleHeap }
    [.add (some 0) 1, .add (some 1) 2, .edit (some 2) 2, .clear, .add (some 2) 3] (by decide)

/-! ## Appending -/

/-- C11: on a store with n rows, `addItem(item, id)` with a non-nil item completes, places the
item at row n (the row count becomes n + 1), registers id in `hashMap`, and sends exactly one
insert notification, whose row range is [n, n]; called right after `clearHistory`, it places
the item at row 0 and announces the range [0, 0]. -/
theorem C11_addItem_appends_and_announces (m : CustomTableModel) (i : Int) (a : Nat)
    (x : HTTPItem) (hx : m.heap[a]? = some x) :
    (∃ m1, m.addItem (some a) i = .ok m1 ∧
      m1.modelData[m.modelData.length]? = some x ∧ m1.rowCount = m.rowCount + 1 ∧
      m1.hashMap.lookup i = some (some a) ∧
      m1.emitted = m.emitted ++
        [Signal.beginInsertRows m.rowCount m.rowCount, Signal.endInsertRows]) ∧
    (∃ m2, m.clearHistory.addItem (some a) i = .ok m2 ∧
      m2.modelData[0]? = some x ∧ m2.rowCount = 1 ∧
      m2.emitted = m.clearHistory.emitted ++
        [Signal.beginInsertRows 0 0, Signal.endInsertRows]) := by
  constructor
  · refine ⟨_, addItem_eq m i a x hx, by simp, ?_, ?_, ?_⟩
    · simp [CustomTableModel.rowCount]
    · simp [lookup_mapSet]
    · simp [CustomTableModel.rowCount]
  · have hx2 : m.clearHistory.heap[a]? = some x := hx
    refine ⟨_, addItem_eq m.clearHistory i a x hx2, ?_, ?_, ?_⟩
    · simp [clearHistory_eq]
    · simp [CustomTableModel.rowCount, clearHistory_eq]
    · simp [clearHistory_eq]

/-- C11 at the sample store: the third sample item is appended to the store of two rows. -/
theorem C11_addItem_appends_and_announces_witness :
    (∃ m1, twoRows.addItem (some 2) 5 = .ok m1 ∧
      m1.modelData[twoRows.modelData.length]? = some
        { QObject := 0x3000, ID := 2, Req := some exampleRequest,
          Resp := some exampleResponse, EditedResp := some exampleResponse } ∧
      m1.rowCount = twoRows.rowCount + 1 ∧
      m1.hashMap.lookup 5 = some (some 2) ∧
      m1.emitted = twoRows.emitted ++
        [Signal.beginInsertRows twoRows.rowCount twoRows.rowCount, Signal.endInsertRows]) ∧
    (∃ m2, twoRows.clearHistory.addItem (some 2) 5 = .ok m2 ∧
      m2.modelData[0]? = some
        { QObject := 0x3000, ID := 2, Req := some exampleRequest,
          Resp := some exampleResponse, EditedResp := some exampleResponse } ∧
      m2.rowCount = 1 ∧
      m2.emitted = twoRows.clearHistory.emitted ++
        [Signal.beginInsertRows 0 0, Signal.endInsertRows]) :=
  C11_addItem_appends_and_announces twoRows 5 2
    { QObject := 0x3000, ID := 2, Req := some exampleRequest, Resp := some exampleResponse,
      EditedResp := some exampleResponse }
    (by decide)

/-! ## The column contract -/

theorem data_ID (m : CustomTableModel) (r : Nat) (x : HTTPItem)
    (hx : m.modelData[r]? = some x) :
    m.data ⟨r, ID⟩ Qt__DisplayRole = .ok (.int x.ID) := by
  unfold CustomTableModel.data
  rw [if_neg (by simp [Qt__DisplayRole, Qt__TextAlignmentRole]), if_neg (by simp)]
  simp only [elemAt_of_getElem? hx, bind, Except.bind]
  rw [if_pos trivial]
  rfl

theorem data_Host (m : CustomTableModel) (r : Nat) (x : HTTPItem) (req : Request)
    (hx : m.modelData[r]? = some x) (hreq : x.Req = some req) :
    m.data ⟨r, Host⟩ Qt__DisplayRole = .ok (.string req.Host) := by
  unfold CustomTableModel.data
  rw [if_neg (by simp [Qt__DisplayRole, Qt__TextAlignmentRole]), if_neg (by simp)]
  simp only [elemAt_of_getElem? hx, bind, Except.bind, hreq, field]
  rw [if_neg (by decide), if_pos trivial]
  rfl

theorem data_Method (m : CustomTableModel) (r : Nat) (x : HTTPItem) (req : Request)
    (hx : m.modelData[r]? = some x) (hreq : x.Req = some req) :
    m.data ⟨r, Method⟩ Qt__DisplayRole = .ok (.string req.Method) := by
  unfold CustomTableModel.data
  rw [if_neg (by simp [Qt__DisplayRole, Qt__TextAlignmentRole]), if_neg (by simp)]
  simp only [elemAt_of_getElem? hx, bind, Except.bind, hreq, field]
  rw [if_neg (by decide), if_neg (by decide), if_pos trivial]
  rfl

theorem data_Path (m : CustomTableModel) (r : Nat) (x : HTTPItem) (req : Request) (u : URL)
    (hx : m.modelData[r]? = some x) (hreq : x.Req = some req) (hurl : req.URL = some u) :
    m.data ⟨r, Path⟩ Qt__DisplayRole = .ok (.string u.Path) := by
  unfold CustomTableModel.data
  rw [if_neg (by simp [Qt__DisplayRole, Qt__TextAlignmentRole]), if_neg (by simp)]
  simp only [elemAt_of_getElem? hx, bind, Except.bind, hreq, hurl, field]
  rw [if_neg (by decide), if_neg (by decide), if_neg (by decide), if_pos trivial]
  rfl

theorem data_Params (m : CustomTableModel) (r : Nat) (x : HTTPItem) (req : Request)
    (hx : m.modelData[r]? = some x) (hreq : x.Req = some req) :
    m.data ⟨r, Params⟩ Qt__DisplayRole =
      .ok (.string (if req.Params = true then lit "✓" else lit "")) := by
  unfold CustomTableModel.data
  rw [if_neg (by simp [Qt__DisplayRole, Qt__TextAlignmentRole]), if_neg (by simp)]
  simp only [elemAt_of_getElem? hx, bind, Except.bind, hreq, field]
  rw [if_neg (by decide), if_neg (by decide), if_neg (by decide), if_neg (by decide),
    if_pos trivial]
  split <;> rfl

/-- C12: the columns are numbered 0 to 7, and for every row in range whose entry has a
request with a URL, `data` with the display role yields the entry `ID` in column 0, the host,
the method and the URL path of the original request in columns 1 to 3, the check mark or the
empty string for the `Params` flag in column 4 and for the presence of `EditedReq` or
`EditedResp` in column 5, and the status and the decimal content length of the original
response in columns 6 and 7, empty when `Resp` is absent; replacing `EditedResp` by any
other value changes neither column 6 nor column 7. -/
theorem C12_data_column_contract (m : CustomTableModel) (r : Nat) (x : HTTPItem)
    (req : Request) (u : URL)
    (hx : m.modelData[r]? = some x) (hreq : x.Req = some req) (hurl : req.URL = some u) :
    [ID, Host, Method, Path, Params, Edit, Status, Length] = [0, 1, 2, 3, 4, 5, 6, 7] ∧
    m.data ⟨r, ID⟩ Qt__DisplayRole = .ok (.int x.ID) ∧
    m.data ⟨r, Host⟩ Qt__DisplayRole = .ok (.string req.Host) ∧
    m.data ⟨r, Method⟩ Qt__DisplayRole = .ok (.string req.Method) ∧
    m.data ⟨r, Path⟩ Qt__DisplayRole = .ok (.string u.Path) ∧
    m.data ⟨r, Params⟩ Qt__DisplayRole =
      .ok (.string (if req.Params = true then lit "✓" else lit "")) ∧
    m.data ⟨r, Edit⟩ Qt__DisplayRole =
      .ok (.string (if x.EditedReq ≠ none ∨ x.EditedResp ≠ none then lit "✓" else lit "")) ∧
    m.data ⟨r, Status⟩ Qt__DisplayRole =
      .ok (match x.Resp with
        | some resp => .string resp.Status
        | none => .invalid) ∧
    m.data ⟨r, Length⟩ Qt__DisplayRole =
      .ok (match x.Resp with
        | some resp => .string (fmtD resp.ContentLength)
        | none => .invalid) ∧
    (∀ er : Option Response,
      CustomTableModel.data
          { m with modelData := m.modelData.set r ({ x with EditedResp := er }) }
          ⟨r, Status⟩ Qt__DisplayRole = m.data ⟨r, Status⟩ Qt__DisplayRole ∧
      CustomTableModel.data
          { m with modelData := m.modelData.set r ({ x with EditedResp := er }) }
          ⟨r, Length⟩ Qt__DisplayRole = m.data ⟨r, Length⟩ Qt__DisplayRole) := by
  have hr : r < m.modelData.length := (List.getElem?_eq_some.mp hx).1
  refine ⟨by decide, data_ID m r x hx, data_Host m r x req hx hreq,
    data_Method m r x req hx hreq, data_Path m r x req u hx hreq hurl,
    data_Params m r x req hx hreq, ?_, ?_, ?_, ?_⟩
  · rw [data_Edit m r x hx]; split <;> rfl
  · rw [data_Status m r x hx]; cases x.Resp <;> rfl
  · rw [data_Length m r x hx]; cases x.Resp <;> rfl
  · intro er
    constructor
    · rw [data_Status _ r _ (List.getElem?_set_self hr), data_Status m r x hx]
    · rw [data_Length _ r _ (List.getElem?_set_self hr), data_Length m r x hx]

/-- C12 at the sample store: row 0 of the store of two rows. -/
theorem C12_data_column_contract_witness :
    [ID, Host, Method, Path, Params, Edit, Status, Length] = [0, 1, 2, 3, 4, 5, 6, 7] ∧
    twoRows.data ⟨(0 : Nat), ID⟩ Qt__DisplayRole = .ok (.int 1) ∧
    twoRows.data ⟨(0 : Nat), Host⟩ Qt__DisplayRole = .ok (.string (lit "example.com")) ∧
    twoRows.data ⟨(0 : Nat), Method⟩ Qt__DisplayRole = .ok (.string (lit "GET")) ∧
    twoRows.data ⟨(0 : Nat), Path⟩ Qt__DisplayRole = .ok (.string (lit "/a")) ∧
    twoRows.data ⟨(0 : Nat), Params⟩ Qt__DisplayRole = .ok (.string (lit "")) ∧
    twoRows.data ⟨(0 : Nat), Edit⟩ Qt__DisplayRole = .ok (.string (lit "")) ∧
    twoRows.data ⟨(0 : Nat), Status⟩ Qt__DisplayRole = .ok .invalid ∧
    twoRows.data ⟨(0 : Nat), Length⟩ Qt__DisplayRole = .ok .invalid ∧
    (∀ er : Option Response,
      CustomTableModel.data { twoRows with modelData := (twoRows.modelData.set 0
          ({ ({ QObject := 0x1000, ID := 1, Req := some exampleRequest } : HTTPItem) with
            EditedResp := er })) }
          ⟨(0 : Nat), Status⟩ Qt__DisplayRole = twoRows.data ⟨(0 : Nat), Status⟩ Qt__DisplayRole ∧
      CustomTableModel.data { twoRows with modelData := (twoRows.modelData.set 0
          ({ ({ QObject := 0x1000, ID := 1, Req := some exampleRequest } : HTTPItem) with
            EditedResp := er })) }
          ⟨(0 : Nat), Length⟩ Qt__DisplayRole
            = twoRows.data ⟨(0 : Nat), Length⟩ Qt__DisplayRole) :=
  C12_data_column_contract twoRows 0
    { QObject := 0x1000, ID := 1, Req := some exampleRequest } exampleRequest exampleURL
    (by decide) (by decide) (by decide)

/-! ## Rendering of a response -/

theorem foldl_concat (vs : List GoString) : ∀ acc : GoString,
    vs.foldl (fun values s => values ++ s) acc = acc ++ vs.flatten := by
  induction vs with
  | nil => intro acc; simp
  | cons v rest ih => intro acc; simp [ih]

theorem foldl_headerLines (h : Header) : ∀ acc : GoString,
    h.foldl (fun ret kv => ret ++ (kv.1 ++ lit ": " ++
        kv.2.foldl (fun values s => values ++ s) [] ++ lit "\n")) acc
      = acc ++ h.flatMap (fun kv => kv.1 ++ lit ": " ++ kv.2.flatten ++ lit "\n") := by
  induction h with
  | nil => intro acc; simp
  | cons kv rest ih =>
    intro acc
    rw [List.foldl_cons, ih, List.flatMap_cons, foldl_concat]
    simp

/-- The header loop writes, for every key in turn, the key, `: `, the values of the key one
after the other, and a newline. -/
theorem headerLines_eq (h : Header) :
    headerLines h = h.flatMap (fun kv => kv.1 ++ lit ": " ++ kv.2.flatten ++ lit "\n") := by
  unfold headerLines
  rw [foldl_headerLines]
  simp

/-- C13: for every non-nil response, `ToString` is `Proto`, a space, `Status` and a newline;
then for each header key the line made of the key, `: `, the values of the key concatenated
with no separator, and a newline; then the line `Content-Length: ` with the decimal
`ContentLength` and a newline, whatever the header mapping holds; then a newline and `Body`
exactly when `Body` is not empty.  The response HTTP/1.1, 200 OK, no header, content length 0
and no body renders as `HTTP/1.1 200 OK\nContent-Length: 0\n`. -/
theorem C13_Response_ToString (r : Response) :
    Response.ToString (some r) =
      r.Proto ++ lit " " ++ r.Status ++ lit "\n" ++
        r.Headers.flatMap (fun kv => kv.1 ++ lit ": " ++ kv.2.flatten ++ lit "\n") ++
        (lit "Content-Length: " ++ fmtD r.ContentLength ++ lit "\n") ++
        (if r.Body ≠ [] then lit "\n" ++ r.Body else []) ∧
    Response.ToString (some okResponse) = lit "HTTP/1.1 200 OK\nContent-Length: 0\n" := by
  refine ⟨?_, by decide⟩
  simp only [Response.ToString, headerLines_eq]
  by_cases hb : r.Body = []
  · simp [hb]
  · have hlen : r.Body.length > 0 := List.length_pos.mpr hb
    simp [hb, hlen]

/-! ## Rendering of an absent value -/

/-- C17: `ToString` on a nil request returns the empty string, and `ToString` on a nil
response returns the empty string; neither panics. -/
theorem C17_ToString_nil :
    Request.ToString none = .ok [] ∧ Response.ToString none = [] ∧ lit "" = [] :=
  ⟨rfl, rfl, rfl⟩

/-! ## The notification of an update -/

theorem literalRows_reached :
    run (CustomTableModel.init { heap := literalHeap }) [.add (some 0) 1, .add (some 1) 2]
      = .ok literalRows := by
  decide

/-- The notification of an update under a shared object pointer: two distinct items that
share their object pointer (both built by a struct literal, so both nil) sit in rows 0 and 1
under the ids 1 and 2; `editItem(item, 2)` sends one `dataChanged` whose indices are in
row 0. -/
theorem dataChanged_under_shared_pointer :
    literalRows.hashMap.lookup 2 = some (some 1) ∧
    literalRows.modelData.map (fun x => x.ID) = [1, 2] ∧
    (literalRows.editItem (some 2) 2 >>= fun m => pure (m.emitted.drop 4))
      = .ok [Signal.dataChanged ⟨0, 2⟩ ⟨0, 2⟩ [5, 6, 7]] := by
  refine ⟨by decide, by decide, by decide⟩

/-- The notification of an update that goes through, when row r is the first row with the
object pointer of the registered entry: one `dataChanged` with both indices at the cell
(r, 2) and the list of the three column constants. -/
theorem editItem_emitted (m : CustomTableModel) (i : Int) (a b r : Nat)
    (e v x : HTTPItem)
    (hreg : m.hashMap.lookup i = some (some a)) (he : m.heap[a]? = some e)
    (hv : m.heap[b]? = some v) (hx : m.modelData[r]? = some x)
    (hp : x.QObject = e.QObject)
    (hfirst : ∀ j, j < r → ∀ y, m.modelData[j]? = some y → y.QObject ≠ e.QObject) :
    ∃ m1, m.editItem (some b) i = .ok m1 ∧
      m1.emitted = m.emitted ++ [Signal.dataChanged ⟨r, 2⟩ ⟨r, 2⟩ [Edit, Status, Length]] := by
  have hget : mapGet m.hashMap i = some a := by simp [mapGet, hreg]
  have hrow := row_of_first m a r e x he hx hp hfirst
  exact ⟨_, editItem_eq m i a b r e v x hget he hv hrow hx, rfl⟩

/-- C14, at a concrete store: id 2 sits in row 1 and is updated with the third sample item.
The call sends exactly one `dataChanged`, for row 1; its two indices are both the cell
(1, 2), so the range it announces is column 2 (`Method`) alone and covers none of the
columns `Edit`, `Status` and `Length`; the list [5, 6, 7] of these columns travels in the
roles argument, where 7 is the text alignment role and the display role 0 of the changed
cells is missing. -/
theorem C14_dataChanged_covers_column_2_only :
    (twoRows.editItem (some 2) 2 >>= fun m => pure (m.emitted.drop 4))
      = .ok [Signal.dataChanged ⟨1, 2⟩ ⟨1, 2⟩ [5, 6, 7]] ∧
    (Method = 2 ∧ [Edit, Status, Length] = [5, 6, 7] ∧ Method ∉ [Edit, Status, Length]) ∧
    (Length = Qt__TextAlignmentRole ∧ Qt__DisplayRole ∉ [Edit, Status, Length]) := by
  refine ⟨by decide, by decide, by decide⟩

/-! ## The frame of `addItem` and `editItem` -/

/-- C15: `addItem` with a non-nil item completes and leaves every existing row, with all its
fields, at its index; `editItem` with a registered id and a non-nil item on a store with at
least one row completes, keeps the number of rows, leaves `ID`, `Req` and `EditedReq` of
every row unchanged, and leaves every row other than the one the update resolves to unchanged
in all its fields: rows are neither reordered nor removed one by one. -/
theorem C15_rows_keep_place (m : CustomTableModel) (i j : Int) (a b c : Nat)
    (e v x : HTTPItem) (hx : m.heap[c]? = some x)
    (hreg : m.hashMap.lookup j = some (some a)) (he : m.heap[a]? = some e)
    (hv : m.heap[b]? = some v) (hrows : m.modelData ≠ []) :
    (∃ m1, m.addItem (some c) i = .ok m1 ∧
      ∀ (r : Nat) (y : HTTPItem), m.modelData[r]? = some y → m1.modelData[r]? = some y) ∧
    (∃ (m2 : CustomTableModel) (r0 : Nat), m.editItem (some b) j = .ok m2 ∧
      m.row (some a) = .ok (r0 : Int) ∧ m2.modelData.length = m.modelData.length ∧
      ∀ (r : Nat) (y : HTTPItem), m.modelData[r]? = some y →
        ∃ y1, m2.modelData[r]? = some y1 ∧ y1.ID = y.ID ∧ y1.Req = y.Req ∧
          y1.EditedReq = y.EditedReq ∧ (r ≠ r0 → y1 = y)) := by
  constructor
  · refine ⟨_, addItem_eq m i c x hx, ?_⟩
    intro r y hy
    have hr : r < m.modelData.length := (List.getElem?_eq_some.mp hy).1
    simp only [List.getElem?_append_left hr]
    exact hy
  · have hget : mapGet m.hashMap j = some a := by simp [mapGet, hreg]
    obtain ⟨r0, hrow, hlt⟩ := row_spec m a e he
    have hr0 : r0 < m.modelData.length := hlt hrows
    have hx0 : m.modelData[r0]? = some m.modelData[r0] := List.getElem?_eq_getElem hr0
    refine ⟨_, r0, editItem_eq m j a b r0 e v _ hget he hv hrow hx0, hrow, by simp, ?_⟩
    intro r y hy
    by_cases hr : r0 = r
    · subst hr
      have hy0 : y = m.modelData[r0] := by
        rw [hx0] at hy; exact (Option.some.inj hy).symm
      subst hy0
      exact ⟨_, List.getElem?_set_self hr0, rfl, rfl, rfl, fun h => absurd rfl h⟩
    · exact ⟨y, by simp only [List.getElem?_set_ne hr]; exact hy, rfl, rfl, rfl, fun _ => rfl⟩

/-- C15 at the sample store: the third sample item is appended, and id 2 is updated with
it. -/
theorem C15_rows_keep_place_witness :
    (∃ m1, twoRows.addItem (some 2) 5 = .ok m1 ∧
      ∀ (r : Nat) (y : HTTPItem), twoRows.modelData[r]? = some y →
        m1.modelData[r]? = some y) ∧
    (∃ (m2 : CustomTableModel) (r0 : Nat), twoRows.editItem (some 2) 2 = .ok m2 ∧
      twoRows.row (some 1) = .ok (r0 : Int) ∧
      m2.modelData.length = twoRows.modelData.length ∧
      ∀ (r : Nat) (y : HTTPItem), twoRows.modelData[r]? = some y →
        ∃ y1, m2.modelData[r]? = some y1 ∧ y1.ID = y.ID ∧ y1.Req = y.Req ∧
          y1.EditedReq = y.EditedReq ∧ (r ≠ r0 → y1 = y)) :=
  C15_rows_keep_place twoRows 5 2 1 2 2
    { QObject := 0x2000, ID := 2, Req := some exampleRequest }
    { QObject := 0x3000, ID := 2, Req := some exampleRequest, Resp := some exampleResponse,
      EditedResp := some exampleResponse }
    { QObject := 0x3000, ID := 2, Req := some exampleRequest, Resp := some exampleResponse,
      EditedResp := some exampleResponse }
    (by decide) (by decide) (by decide) (by decide) (by decide)

/-! ## Two updates of one id -/

theorem Pointer_congr {h1 h2 : List HTTPItem} (h : h1.map frame = h2.map frame) (p : Ptr) :
    Pointer h1 p = Pointer h2 p := by
  cases p with
  | none => rfl
  | some a =>
    have hq : (h1.map frame)[a]? = (h2.map frame)[a]? := by rw [h]
    rw [List.getElem?_map, List.getElem?_map] at hq
    cases e1 : h1[a]? with
    | none =>
      cases e2 : h2[a]? with
      | none => simp only [Pointer, e1, e2]
      | some y => rw [e1, e2] at hq; cases hq
    | some x =>
      cases e2 : h2[a]? with
      | none => rw [e1, e2] at hq; cases hq
      | some y =>
        rw [e1, e2] at hq
        have hf : frame x = frame y := Option.some.inj hq
        simp only [frame, Prod.mk.injEq] at hf
        simp only [Pointer, e1, e2, hf.1]

theorem rowFrom_congr (p : Nat) : ∀ (xs ys : List HTTPItem) (k : Nat),
    xs.map frame = ys.map frame →
    CustomTableModel.rowFrom p xs k = CustomTableModel.rowFrom p ys k := by
  intro xs
  induction xs with
  | nil =>
    intro ys k h
    cases ys with
    | nil => rfl
    | cons y rest => simp at h
  | cons x rest ih =>
    intro ys k h
    cases ys with
    | nil => simp at h
    | cons y rest2 =>
      simp only [List.map_cons, List.cons.injEq] at h
      have hq : x.QObject = y.QObject := by
        have hf := h.1
        simp only [frame, Prod.mk.injEq] at hf
        exact hf.1
      unfold CustomTableModel.rowFrom
      rw [hq, ih rest2 (k + 1) h.2]

theorem rowLoop_congr (h1 h2 : List HTTPItem) (p : Ptr) (hp : Pointer h1 p = Pointer h2 p) :
    ∀ (xs ys : List HTTPItem) (k : Nat), xs.map frame = ys.map frame →
    CustomTableModel.rowLoop h1 p xs k = CustomTableModel.rowLoop h2 p ys k := by
  intro xs
  induction xs with
  | nil =>
    intro ys k h
    cases ys with
    | nil => rfl
    | cons y rest => simp at h
  | cons x rest ih =>
    intro ys k h
    cases ys with
    | nil => simp at h
    | cons y rest2 =>
      simp only [List.map_cons, List.cons.injEq] at h
      have hq : x.QObject = y.QObject := by
        have hf := h.1
        simp only [frame, Prod.mk.injEq] at hf
        exact hf.1
      simp only [CustomTableModel.rowLoop, hp, hq, ih rest2 (k + 1) h.2]

/-- An update that goes through does not change what the row scan answers. -/
theorem row_editItem {m m1 : CustomTableModel} {item : Ptr} {i : Int}
    (h : m.editItem item i = .ok m1) (p : Ptr) : m1.row p = m.row p := by
  obtain ⟨_, hheap, hrowsf, _, _⟩ := editItem_frame h
  unfold CustomTableModel.row
  rw [rowLoop_congr m1.heap m.heap p (Pointer_congr hheap p) _ _ 0 hrowsf]

/-- C16 as stated fails: id 2 is registered to the second sample item, which carries no
response.  Update x is the third sample item (response `200 OK`), update y is the registered
item itself.  After `editItem(x, 2)` the registered item carries the response of x, so
`editItem(y, 2)` writes that response to the row again; `editItem(y, 2)` alone leaves the row
without a response. -/
theorem C16_aliased_update_keeps_first :
    twoRows.hashMap.lookup 2 = some (some 1) ∧
    (run twoRows [.edit (some 2) 2, .edit (some 1) 2] >>= fun m => m.GetReqResp 1)
      = .ok (some exampleRequest, none, some exampleResponse, some exampleResponse) ∧
    (run twoRows [.edit (some 1) 2] >>= fun m => m.GetReqResp 1)
      = .ok (some exampleRequest, none, none, none) := by
  refine ⟨by decide, by decide, by decide⟩

/-- C16, amended: on a store with at least one row, for every registered id and every pair of
non-nil update items x and y of which y is not the object registered under id,
`editItem(x, id)` followed by `editItem(y, id)` completes and leaves the same `modelData`,
`hashMap` and objects as `editItem(y, id)` alone. -/
theorem C16_last_update_wins (m : CustomTableModel) (i : Int) (a bx b : Nat)
    (e vx v : HTTPItem)
    (hreg : m.hashMap.lookup i = some (some a)) (he : m.heap[a]? = some e)
    (hvx : m.heap[bx]? = some vx) (hv : m.heap[b]? = some v) (hne : b ≠ a)
    (hrows : m.modelData ≠ []) :
    ∃ m1 m2 m3, m.editItem (some bx) i = .ok m1 ∧ m1.editItem (some b) i = .ok m2 ∧
      m.editItem (some b) i = .ok m3 ∧
      m2.modelData = m3.modelData ∧ m2.hashMap = m3.hashMap ∧ m2.heap = m3.heap := by
  have hget : mapGet m.hashMap i = some a := by simp [mapGet, hreg]
  obtain ⟨r, hrow, hlt⟩ := row_spec m a e he
  have hr : r < m.modelData.length := hlt hrows
  have ha : a < m.heap.length := (List.getElem?_eq_some.mp he).1
  have hx : m.modelData[r]? = some m.modelData[r] := List.getElem?_eq_getElem hr
  obtain ⟨m1, h1, hm1⟩ : ∃ m1, m.editItem (some bx) i = .ok m1 ∧ m1 =
      { heap := m.heap.set a { e with Resp := vx.Resp, EditedResp := vx.EditedResp },
        modelData := m.modelData.set r
          { m.modelData[r] with Resp := vx.Resp, EditedResp := vx.EditedResp },
        hashMap := m.hashMap,
        emitted := m.emitted ++
          [Signal.dataChanged ⟨r, 2⟩ ⟨r, 2⟩ [Edit, Status, Length]] } :=
    ⟨_, editItem_eq m i a bx r e vx _ hget he hvx hrow hx, rfl⟩
  have h3 := editItem_eq m i a b r e v _ hget he hv hrow hx
  have hrow1 := row_editItem h1 (some a)
  rw [hrow] at hrow1
  have he1 : m1.heap[a]? = some { e with Resp := vx.Resp, EditedResp := vx.EditedResp } := by
    rw [hm1]; exact List.getElem?_set_self ha
  have hv1 : m1.heap[b]? = some v := by
    rw [hm1]
    show (m.heap.set a _)[b]? = some v
    rw [List.getElem?_set_ne (Ne.symm hne)]; exact hv
  have hx1 : m1.modelData[r]?
      = some { m.modelData[r] with Resp := vx.Resp, EditedResp := vx.EditedResp } := by
    rw [hm1]; exact List.getElem?_set_self hr
  have hget1 : mapGet m1.hashMap i = some a := by rw [hm1]; exact hget
  have h2 := editItem_eq m1 i a b r _ v _ hget1 he1 hv1 hrow1 hx1
  refine ⟨m1, _, _, h1, h2, h3, ?_, ?_, ?_⟩
  · subst hm1; simp only [List.set_set]
  · subst hm1; rfl
  · subst hm1; simp only [List.set_set]

/-- C16, amended, at the sample store: id 2 is updated with the third sample item and then
with the first. -/
theorem C16_last_update_wins_witness :
    ∃ m1 m2 m3, twoRows.editItem (some 2) 2 = .ok m1 ∧ m1.editItem (some 0) 2 = .ok m2 ∧
      twoRows.editItem (some 0) 2 = .ok m3 ∧
      m2.modelData = m3.modelData ∧ m2.hashMap = m3.hashMap ∧ m2.heap = m3.heap :=
  C16_last_update_wins twoRows 2 1 2 0
    { QObject := 0x2000, ID := 2, Req := some exampleRequest }
    { QObject := 0x3000, ID := 2, Req := some exampleRequest, Resp := some exampleResponse,
      EditedResp := some exampleResponse }
    { QObject := 0x1000, ID := 1, Req := some exampleRequest }
    (by decide) (by decide) (by decide) (by decide) (by decide) (by decide)

/-! ## What the row scan answers -/

/-- C19 as stated fails at the nil item, the one `editItem` hands to `row` for an
unregistered id: on the store of two rows `row(nil)` does not answer 0, the first iteration
of the loop calls `i.Pointer()` and panics with a nil dereference. -/
theorem C19_row_nil_panics :
    mapGet twoRows.hashMap 7 = none ∧ twoRows.modelData ≠ [] ∧
      twoRows.row (mapGet twoRows.hashMap 7) = .error .nilDereference := by
  refine ⟨by decide, by decide, by decide⟩

/-- C19, amended: for every store and every non-nil item i, either `row(i)` is the smallest
index of `modelData` whose element has the object pointer of i, or no element has that
pointer and `row(i)` is 0.  On the sample store a scan that finds no row (the third item)
answers 0 like the hit on row 0, and of the two rows of `literalRows`, which share one
pointer, the item of row 1 resolves to row 0. -/
theorem C19_row_first_match (m : CustomTableModel) (a : Nat) (e : HTTPItem)
    (he : m.heap[a]? = some e) :
    ((∃ (r : Nat) (x : HTTPItem), m.row (some a) = .ok (r : Int) ∧
        m.modelData[r]? = some x ∧ x.QObject = e.QObject ∧
        ∀ (j : Nat) (y : HTTPItem), j < r → m.modelData[j]? = some y →
          y.QObject ≠ e.QObject) ∨
      ((∀ y, y ∈ m.modelData → y.QObject ≠ e.QObject) ∧ m.row (some a) = .ok 0)) ∧
    (twoRows.row (some 2) = .ok 0 ∧ twoRows.row (some 0) = .ok 0) ∧
    literalRows.row (some 1) = .ok 0 := by
  refine ⟨?_, by decide, by decide⟩
  unfold CustomTableModel.row
  rw [rowLoop_of_Pointer (Pointer_some he)]
  cases h : CustomTableModel.rowFrom e.QObject m.modelData 0 with
  | none =>
    right
    exact ⟨rowFrom_none h, rfl⟩
  | some idx =>
    left
    obtain ⟨_, x, hx, hp, hfirst⟩ := rowFrom_some h
    exact ⟨idx, x, rfl, hx, hp, fun j y hj hy => hfirst j hj y hy⟩

/-- C19, amended, at the sample store: the scan for the second sample item. -/
theorem C19_row_first_match_witness :
    ((∃ (r : Nat) (x : HTTPItem), twoRows.row (some 1) = .ok (r : Int) ∧
        twoRows.modelData[r]? = some x ∧ x.QObject = 0x2000 ∧
        ∀ (j : Nat) (y : HTTPItem), j < r → twoRows.modelData[j]? = some y →
          y.QObject ≠ 0x2000) ∨
      ((∀ y, y ∈ twoRows.modelData → y.QObject ≠ 0x2000) ∧ twoRows.row (some 1) = .ok 0)) ∧
    (twoRows.row (some 2) = .ok 0 ∧ twoRows.row (some 0) = .ok 0) ∧
    literalRows.row (some 1) = .ok 0 :=
  C19_row_first_match twoRows 1 { QObject := 0x2000, ID := 2, Req := some exampleRequest }
    (by decide)

/-! ## The slice bound of the request rendering -/

/-- C20: for every request with a non-nil URL, `ToString` returns a text exactly when the
string form of the URL has at least `len(URL.Scheme) + 2` bytes, and then the second field is
that string form from byte `len(URL.Scheme) + 2` on; when the string form is shorter the slice
is out of range and the rendering panics.  The empty URL and the URL with the one-byte path
`a` and no scheme are such cases. -/
theorem C20_ToString_slice_bound (r : Request) (u : URL) :
    Request.ToString (some { r with URL := some u }) =
      (if u.Scheme.length + 2 ≤ u.String.length then
        .ok (r.Method ++ lit " " ++ u.String.drop (u.Scheme.length + 2) ++ lit " " ++
          r.Proto ++ lit "\nHost: " ++ r.Host ++ lit "\n" ++ headerLines r.Headers ++
          (if r.Body.length > 0 then lit "\n" ++ r.Body else []))
      else .error .sliceOutOfRange) ∧
    ((∃ s, Request.ToString (some { r with URL := some u }) = .ok s) ↔
      u.Scheme.length + 2 ≤ u.String.length) ∧
    (URL.String {} = [] ∧
      Request.ToString (some { URL := some {} }) = .error .sliceOutOfRange) ∧
    (URL.String { Path := lit "a" } = lit "a" ∧
      Request.ToString (some { URL := some { Path := lit "a" } })
        = .error .sliceOutOfRange) := by
  have hmain : Request.ToString (some { r with URL := some u }) =
      (if u.Scheme.length + 2 ≤ u.String.length then
        .ok (r.Method ++ lit " " ++ u.String.drop (u.Scheme.length + 2) ++ lit " " ++
          r.Proto ++ lit "\nHost: " ++ r.Host ++ lit "\n" ++ headerLines r.Headers ++
          (if r.Body.length > 0 then lit "\n" ++ r.Body else []))
      else .error .sliceOutOfRange) := by
    by_cases hk : u.Scheme.length + 2 ≤ u.String.length
    · simp only [Request.ToString, fmtV, field, sliceFrom, hk, if_true, bind, Except.bind,
        pure, Except.pure]
      split <;> simp
    · simp only [Request.ToString, fmtV, field, sliceFrom, hk, if_false, bind, Except.bind]
  refine ⟨hmain, ?_, ⟨by decide, by decide⟩, ⟨by decide, by decide⟩⟩
  rw [hmain]
  constructor
  · rintro ⟨s, hs⟩
    by_contra hk
    rw [if_neg hk] at hs
    cases hs
  · intro hk
    rw [if_pos hk]
    exact ⟨_, rfl⟩

end Broxy
